import Mathlib

/-!
Shallow embedding of the Agent-Checkout repository (merchant invoice issuing,
settlement matching, delegation-policy guardian, idempotency and rate limiting)
together with proofs checking the natural-language specification against it.

JavaScript strings are modelled as Lean `String`; the code only ever compares
or lower-cases ASCII data (hex addresses, hex memos, identifiers), so
`toLowerCase` is modelled as ASCII lower-casing.  JavaScript `bigint` values
obtained from decimal digit strings are modelled as `Nat`.
-/

namespace AgentCheckout

/-- Test for an upper-case ASCII letter (`A`-`Z`). -/
def isUpperAscii (c : Char) : Bool :=
  65 ≤ c.toNat && c.toNat ≤ 90

/-- Model of `String.prototype.toLowerCase` restricted to ASCII (all strings the
repository lower-cases are hex addresses, hex memos, or header tokens). -/
def asciiLowerChar (c : Char) : Char :=
  if isUpperAscii c then Char.ofNat (c.toNat + 32) else c

/-- Lower-case an entire string, character by character. -/
def jsToLower (s : String) : String :=
  String.mk (s.toList.map asciiLowerChar)

/-- Model of `BigInt(s)` on a decimal digit string (the repository only applies
it to strings already validated against `/^[0-9]+$/`). -/
def strToNat (s : String) : Nat :=
  s.toList.foldl (fun a c => a * 10 + (c.toNat - 48)) 0

/-- Decidable test for `/^[0-9]+$/` (non-empty decimal digit string). -/
def isAmountString (s : String) : Bool :=
  !s.toList.isEmpty && s.toList.all (fun c => 48 ≤ c.toNat && c.toNat ≤ 57)

/-- Test for an ASCII hex digit, as in the character class `[a-fA-F0-9]`. -/
def isHexDigitChar (c : Char) : Bool :=
  (48 ≤ c.toNat && c.toNat ≤ 57) ||
  (97 ≤ c.toNat && c.toNat ≤ 102) ||
  (65 ≤ c.toNat && c.toNat ≤ 70)

/-- Model of the viem address regex `/^0x[a-fA-F0-9]{40}$/`. -/
def addressRegexTest (s : String) : Bool :=
  match s.toList with
  | '0' :: 'x' :: rest => rest.length == 40 && rest.all isHexDigitChar
  | _ => false

/-- Test that a string contains no upper-case ASCII letter (so that
`s.toLowerCase() === s` holds). -/
def isAllLowerString (s : String) : Bool :=
  s.toList.all (fun c => !isUpperAscii c)

/-- Model of viem `isAddress` (strict mode, the default): the address regex
must match, and a mixed-case spelling must additionally be a valid EIP-55
checksum.  The checksum test needs keccak-256, which is external to the
repository, so it is taken as a parameter `checksumOk`; every theorem below is
universally quantified over it. -/
def isAddress (checksumOk : String → Bool) (s : String) : Bool :=
  addressRegexTest s && (isAllLowerString s || checksumOk s)

/-- Model of the regex `/^0x[a-fA-F0-9]{64}$/` used for invoice memos. -/
def memoRegexTest (s : String) : Bool :=
  match s.toList with
  | '0' :: 'x' :: rest => rest.length == 64 && rest.all isHexDigitChar
  | _ => false

/-! ### Invoice data model (`src/shared/invoice.ts`) -/

/-- Metadata values are `string | number | boolean`; numbers are restricted to
the integers actually used by the repository (listing ids, night counts). -/
inductive MetaValue where
  | mstr (s : String)
  | mnum (n : Int)
  | mbool (b : Bool)
deriving DecidableEq, Repr

/-- Line item of an `InvoiceV1` (`InvoiceLineItemV1`). -/
structure LineItem where
  id : Option String
  title : String
  category : Option String
  quantity : Option Int
  unitAmount : Option String
  totalAmount : String
deriving DecidableEq, Repr

/-- The `InvoiceV1` record (signed invoice).  Optional fields are `Option`;
an absent JavaScript field is `none`. -/
structure InvoiceV1 where
  version : String
  invoiceId : String
  issuedAt : Int
  dueAt : Int
  chainId : Int
  merchant : String
  recipient : String
  payer : Option String
  token : String
  amount : String
  memo : String
  description : String
  merchantReference : Option String
  purpose : Option String
  lineItems : Option (List LineItem)
  metadata : Option (List (String × MetaValue))
  merchantSig : String
deriving DecidableEq, Repr

/-- The constant `INVOICE_VERSION`. -/
def INVOICE_VERSION : String := "tempo.invoice.v1"

/-! ### C1 — settlement matcher (`src/sdk/merchant.ts`, `matchSettlement`) -/

/-- A parsed `TransferWithMemo` event log as consumed by `matchSettlement`:
`eventLog.address` plus the `args` fields.  `amount` is the on-chain `uint256`
value (a JavaScript `bigint`), modelled as `Nat`. -/
structure TransferEvent where
  address : String
  from_ : String
  to_ : String
  amount : Nat
  memo : String
deriving DecidableEq, Repr

/-- The predicate inside `matchSettlement`'s `transferLogs.find(...)`, translated
clause by clause:  contract address, `to`, exact amount, memo, and — only when
`invoice.payer` is truthy — `from`. -/
def settlementMatches (invoice : InvoiceV1) (eventLog : TransferEvent) : Bool :=
  (jsToLower eventLog.address == jsToLower invoice.token) &&
  (jsToLower eventLog.to_ == jsToLower invoice.recipient) &&
  (eventLog.amount == strToNat invoice.amount) &&
  (jsToLower eventLog.memo == jsToLower invoice.memo) &&
  (match invoice.payer with
   | none => true
   | some p => p == "" || jsToLower eventLog.from_ == jsToLower p)

/-- `TempoMerchantSdk.matchSettlement`, after `parseEventLogs` has yielded the
list of `TransferWithMemo` events: `Array.prototype.find` over the supplied
order, `undefined` (here `none`) when nothing matches. -/
def matchSettlement (invoice : InvoiceV1) (logs : List TransferEvent) :
    Option TransferEvent :=
  logs.find? (settlementMatches invoice)

/-- The matching condition exactly as the specification words it: contract
address, recipient, exact integer amount and memo all agree (case-insensitively
for the hex strings), and the `from` check applies only when a payer is set. -/
def SettlementSpec (invoice : InvoiceV1) (e : TransferEvent) : Prop :=
  jsToLower e.address = jsToLower invoice.token ∧
  jsToLower e.to_ = jsToLower invoice.recipient ∧
  e.amount = strToNat invoice.amount ∧
  jsToLower e.memo = jsToLower invoice.memo ∧
  (∀ p, invoice.payer = some p → p ≠ "" → jsToLower e.from_ = jsToLower p)

instance (invoice : InvoiceV1) (e : TransferEvent) :
    Decidable (SettlementSpec invoice e) := by
  unfold SettlementSpec; infer_instance

theorem settlementMatches_iff (invoice : InvoiceV1) (e : TransferEvent) :
    settlementMatches invoice e = true ↔ SettlementSpec invoice e := by
  unfold settlementMatches SettlementSpec
  cases hp : invoice.payer with
  | none => simp [hp, and_assoc]
  | some p =>
      by_cases hpe : p = ""
      · simp [hp, hpe, and_assoc]
      · simp only [hp, Bool.and_eq_true, beq_iff_eq, Bool.or_eq_true,
          Option.some.injEq]
        constructor
        · rintro ⟨⟨⟨⟨h1, h2⟩, h3⟩, h4⟩, h5⟩
          refine ⟨h1, h2, h3, h4, ?_⟩
          rintro q rfl -
          rcases h5 with h | h
          · exact absurd (by simpa using h) hpe
          · exact h
        · rintro ⟨h1, h2, h3, h4, h5⟩
          exact ⟨⟨⟨⟨h1, h2⟩, h3⟩, h4⟩, Or.inr (h5 p rfl hpe)⟩

/-- First-match decomposition for `List.find?`. -/
theorem find?_eq_some_first {α : Type} (p : α → Bool) (l : List α) (e : α) :
    l.find? p = some e ↔
      ∃ l₁ l₂, l = l₁ ++ e :: l₂ ∧ p e = true ∧ ∀ x ∈ l₁, p x = false := by
  induction l with
  | nil => simp
  | cons a t ih =>
      by_cases ha : p a = true
      · simp only [List.find?_cons_of_pos _ ha]
        constructor
        · rintro h
          injection h with h; subst h
          exact ⟨[], t, rfl, ha, by simp⟩
        · rintro ⟨l₁, l₂, hsplit, hpe, hfalse⟩
          cases l₁ with
          | nil => simp at hsplit; simp [hsplit.1]
          | cons b t₁ =>
              have hb : b = a := by
                have := congrArg (fun l => List.head? l) hsplit
                simpa using this.symm
              subst hb
              have := hfalse b (by simp)
              rw [this] at ha; cases ha
      · have ha' : p a = false := by
          cases h : p a with
          | false => rfl
          | true => rw [h] at ha; cases ha rfl
        simp only [List.find?_cons_of_neg _ ha]
        rw [ih]
        constructor
        · rintro ⟨l₁, l₂, hsplit, hpe, hfalse⟩
          refine ⟨a :: l₁, l₂, by simp [hsplit], hpe, ?_⟩
          intro x hx
          rcases List.mem_cons.mp hx with h | h
          · subst h; exact ha'
          · exact hfalse x h
        · rintro ⟨l₁, l₂, hsplit, hpe, hfalse⟩
          cases l₁ with
          | nil =>
              simp at hsplit
              rw [hsplit.1] at ha'
              rw [hpe] at ha'; cases ha'
          | cons b t₁ =>
              have hb : b = a := by
                have := congrArg (fun l => List.head? l) hsplit
                simpa using this.symm
              subst hb
              simp only [List.cons_append, List.cons.injEq, true_and] at hsplit
              exact ⟨t₁, l₂, hsplit, hpe, fun x hx => hfalse x (by simp [hx])⟩

/-- C1: the settlement matcher returns an event iff some supplied event
satisfies all of the matching conditions (contract address, recipient, exact
integer amount, memo, and `from` only when a payer is pinned, each
case-insensitively); when several events match it returns the first in supplied
order, and when none does it returns `none` rather than an error. -/
theorem matchSettlement_spec (invoice : InvoiceV1) (logs : List TransferEvent) :
    (matchSettlement invoice logs = none ↔
       ∀ e ∈ logs, ¬ SettlementSpec invoice e) ∧
    (∀ e, matchSettlement invoice logs = some e ↔
       ∃ l₁ l₂, logs = l₁ ++ e :: l₂ ∧ SettlementSpec invoice e ∧
         ∀ x ∈ l₁, ¬ SettlementSpec invoice x) := by
  constructor
  · rw [matchSettlement, List.find?_eq_none]
    constructor
    · intro h e he hspec
      exact h e he ((settlementMatches_iff invoice e).mpr hspec)
    · intro h e he hmatch
      exact h e he ((settlementMatches_iff invoice e).mp hmatch)
  · intro e
    rw [matchSettlement, find?_eq_some_first]
    constructor
    · rintro ⟨l₁, l₂, hsplit, hpe, hfalse⟩
      refine ⟨l₁, l₂, hsplit, (settlementMatches_iff invoice e).mp hpe, ?_⟩
      intro x hx hspec
      have := hfalse x hx
      rw [(settlementMatches_iff invoice x).mpr hspec] at this
      cases this
    · rintro ⟨l₁, l₂, hsplit, hspec, hfalse⟩
      refine ⟨l₁, l₂, hsplit, (settlementMatches_iff invoice e).mpr hspec, ?_⟩
      intro x hx
      cases h : settlementMatches invoice x with
      | false => rfl
      | true => exact absurd ((settlementMatches_iff invoice x).mp h) (hfalse x hx)


/-! ### C10 — fixed-window rate limiter (`src/shared/rateLimit.ts`) -/

/-- One window of `InMemoryRateLimiter` (`WindowState`). -/
structure WindowState where
  count : Nat
  resetAt : Nat
deriving DecidableEq, Repr

/-- Result returned by `InMemoryRateLimiter.check` (`RateLimitResult`). -/
structure RateLimitResult where
  allowed : Bool
  retryAfterSeconds : Nat
deriving DecidableEq, Repr

/-- The limiter's keyed window map, modelled as an association list with
JavaScript `Map` semantics (lookup by key, set replaces). -/
def mapLookup {β : Type} (m : List (String × β)) (k : String) : Option β :=
  (m.find? (fun p => p.1 == k)).map Prod.snd

/-- `Map.prototype.set`: replace the binding of `k` if present, else append. -/
def mapSet {β : Type} (m : List (String × β)) (k : String) (v : β) :
    List (String × β) :=
  if (m.find? (fun p => p.1 == k)).isSome then
    m.map (fun p => if p.1 == k then (k, v) else p)
  else
    m ++ [(k, v)]

/-- `InMemoryRateLimiter.check(key, now)`, translated branch by branch; returns
the result together with the updated window map.  `Math.ceil(x / 1000)` on a
non-negative integer is `(x + 999) / 1000` in integer arithmetic, and
`Math.max(resetAt - now, 0)` is truncated subtraction. -/
def rateLimiterCheck (maxRequests windowMs : Nat)
    (windows : List (String × WindowState)) (key : String) (now : Nat) :
    RateLimitResult × List (String × WindowState) :=
  match mapLookup windows key with
  | none =>
      (⟨true, 0⟩, mapSet windows key ⟨1, now + windowMs⟩)
  | some existing =>
      if now ≥ existing.resetAt then
        (⟨true, 0⟩, mapSet windows key ⟨1, now + windowMs⟩)
      else if existing.count ≥ maxRequests then
        (⟨false, (existing.resetAt - now + 999) / 1000⟩, windows)
      else
        (⟨true, 0⟩, mapSet windows key ⟨existing.count + 1, existing.resetAt⟩)

/-- C10: whenever no window exists for the key, or the current time has reached
the stored `resetAt`, `check` starts a fresh window with count 1 and allows the
request regardless of `maxRequests` (in particular for `maxRequests = 0`); and
every allowed result carries `retryAfterSeconds = 0`. -/
theorem rateLimiterCheck_fresh_window_allows (maxRequests windowMs : Nat)
    (windows : List (String × WindowState)) (key : String) (now : Nat)
    (hfresh : mapLookup windows key = none ∨
      ∃ w, mapLookup windows key = some w ∧ now ≥ w.resetAt) :
    rateLimiterCheck maxRequests windowMs windows key now =
      (⟨true, 0⟩, mapSet windows key ⟨1, now + windowMs⟩) ∧
    (∀ (mr wm : Nat) (ws : List (String × WindowState)) (k : String) (t : Nat),
      (rateLimiterCheck mr wm ws k t).1.allowed = true →
      (rateLimiterCheck mr wm ws k t).1.retryAfterSeconds = 0) := by
  constructor
  · rcases hfresh with h | ⟨w, hw, hge⟩
    · simp [rateLimiterCheck, h]
    · simp [rateLimiterCheck, hw, hge]
  · intro mr wm ws k t hallowed
    unfold rateLimiterCheck at *
    cases h : mapLookup ws k with
    | none => simp [h]
    | some w =>
        rw [h] at hallowed
        by_cases h1 : t ≥ w.resetAt
        · simp [h, h1]
        · by_cases h2 : w.count ≥ mr
          · simp [h, h1, h2] at hallowed
          · simp [h, h1, h2]

/-- Witness: with `maxRequests = 0` and an empty map the first request is still
admitted with `retryAfterSeconds = 0` and a fresh window of count 1. -/
theorem rateLimiterCheck_fresh_window_allows_witness :
    rateLimiterCheck 0 1000 [] "k" 5 = (⟨true, 0⟩, [("k", ⟨1, 1005⟩)]) :=
  (rateLimiterCheck_fresh_window_allows 0 1000 [] "k" 5 (Or.inl rfl)).1

/-! ### C4 — delegation policy enforcement (`src/agent.ts`,
`validateInvoiceAgainstPolicy`) -/

/-- The guardian's `DelegationPolicy` record. -/
structure DelegationPolicy where
  owner : String
  maxAmount : String
  allowedRecipients : List String
  allowedTokens : List String
  expiresAt : Int
  updatedAt : Int
deriving DecidableEq, Repr

/-- The seven violation reasons of `validateInvoiceAgainstPolicy`, in source
order (each constructor corresponds to one `throw new Error(...)`). -/
inductive PolicyViolation where
  | wrongChain
  | invoiceExpired
  | policyExpired
  | payerMismatch
  | overBudget
  | recipientNotAllowed
  | tokenNotAllowed
deriving DecidableEq, Repr

/-- `validateInvoiceAgainstPolicy(invoice, policy, payer)`, with the configured
`CHAIN_ID` and the current time `now` as explicit parameters; each `throw`
becomes `Except.error`. -/
def validateInvoiceAgainstPolicy (cfgChainId : Int) (invoice : InvoiceV1)
    (policy : DelegationPolicy) (payer : String) (now : Int) :
    Except PolicyViolation Unit :=
  if invoice.chainId ≠ cfgChainId then .error .wrongChain
  else if invoice.dueAt < now then .error .invoiceExpired
  else if policy.expiresAt < now then .error .policyExpired
  else if (match invoice.payer with
           | none => false
           | some p => p ≠ "" && jsToLower p ≠ jsToLower payer) then
    .error .payerMismatch
  else if strToNat invoice.amount > strToNat policy.maxAmount then
    .error .overBudget
  else if policy.allowedRecipients.length > 0 &&
      !(policy.allowedRecipients.any
          (fun r => jsToLower r == jsToLower invoice.recipient)) then
    .error .recipientNotAllowed
  else if policy.allowedTokens.length > 0 &&
      !(policy.allowedTokens.any
          (fun t => jsToLower t == jsToLower invoice.token)) then
    .error .tokenNotAllowed
  else .ok ()

/-- Position of each policy check in the documented short-circuit order. -/
def violationIndex : PolicyViolation → Nat
  | .wrongChain => 0
  | .invoiceExpired => 1
  | .policyExpired => 2
  | .payerMismatch => 3
  | .overBudget => 4
  | .recipientNotAllowed => 5
  | .tokenNotAllowed => 6

/-- The proposition "check number `i` passes", stated independently of the
enforcement function, following the specification's wording of the seven
checks. -/
def policyCheckPasses (cfgChainId : Int) (invoice : InvoiceV1)
    (policy : DelegationPolicy) (payer : String) (now : Int) : Nat → Prop
  | 0 => invoice.chainId = cfgChainId
  | 1 => invoice.dueAt ≥ now
  | 2 => policy.expiresAt ≥ now
  | 3 => ∀ p, invoice.payer = some p → p ≠ "" → jsToLower p = jsToLower payer
  | 4 => strToNat invoice.amount ≤ strToNat policy.maxAmount
  | 5 => policy.allowedRecipients ≠ [] →
      ∃ r ∈ policy.allowedRecipients, jsToLower r = jsToLower invoice.recipient
  | 6 => policy.allowedTokens ≠ [] →
      ∃ t ∈ policy.allowedTokens, jsToLower t = jsToLower invoice.token
  | _ => True


/-- Bridge: the payer condition in the code is false iff spec check 3 holds. -/
theorem payer_cond_iff (invoice : InvoiceV1) (payer : String) :
    (match invoice.payer with
     | none => false
     | some p => p ≠ "" && jsToLower p ≠ jsToLower payer) = false ↔
    (∀ p, invoice.payer = some p → p ≠ "" → jsToLower p = jsToLower payer) := by
  cases hp : invoice.payer with
  | none =>
      constructor
      · intro _ q hq _
        cases hq
      · intro _; rfl
  | some p =>
      constructor
      · intro h q hq hne
        injection hq with hq; subst hq
        rcases Bool.and_eq_false_iff.mp h with h | h
        · exact absurd (by simpa using h) hne
        · simpa using h
      · intro h
        by_cases hpe : p = ""
        · subst hpe; simp
        · simp [h p rfl hpe]

/-- Bridge: the recipient allow-list condition is false iff spec check 5
holds. -/
theorem recip_cond_iff (invoice : InvoiceV1) (policy : DelegationPolicy) :
    (policy.allowedRecipients.length > 0 &&
      !(policy.allowedRecipients.any
          (fun r => jsToLower r == jsToLower invoice.recipient))) = false ↔
    (policy.allowedRecipients ≠ [] →
      ∃ r ∈ policy.allowedRecipients,
        jsToLower r = jsToLower invoice.recipient) := by
  constructor
  · intro h hne
    rcases Bool.and_eq_false_iff.mp h with h | h
    · have : policy.allowedRecipients.length = 0 := by simpa using h
      exact absurd (List.length_eq_zero.mp this) hne
    · have h' : policy.allowedRecipients.any
          (fun r => jsToLower r == jsToLower invoice.recipient) = true := by
        simpa using h
      rcases List.any_eq_true.mp h' with ⟨r, hr, hrr⟩
      exact ⟨r, hr, by simpa using hrr⟩
  · intro h
    by_cases hne : policy.allowedRecipients = []
    · simp [hne]
    · rcases h hne with ⟨r, hr, hrr⟩
      have : policy.allowedRecipients.any
          (fun r => jsToLower r == jsToLower invoice.recipient) = true :=
        List.any_eq_true.mpr ⟨r, hr, by simpa using hrr⟩
      simp [this]

/-- Bridge: the token allow-list condition is false iff spec check 6 holds. -/
theorem token_cond_iff (invoice : InvoiceV1) (policy : DelegationPolicy) :
    (policy.allowedTokens.length > 0 &&
      !(policy.allowedTokens.any
          (fun t => jsToLower t == jsToLower invoice.token))) = false ↔
    (policy.allowedTokens ≠ [] →
      ∃ t ∈ policy.allowedTokens, jsToLower t = jsToLower invoice.token) := by
  constructor
  · intro h hne
    rcases Bool.and_eq_false_iff.mp h with h | h
    · have : policy.allowedTokens.length = 0 := by simpa using h
      exact absurd (List.length_eq_zero.mp this) hne
    · have h' : policy.allowedTokens.any
          (fun t => jsToLower t == jsToLower invoice.token) = true := by
        simpa using h
      rcases List.any_eq_true.mp h' with ⟨t, ht, htt⟩
      exact ⟨t, ht, by simpa using htt⟩
  · intro h
    by_cases hne : policy.allowedTokens = []
    · simp [hne]
    · rcases h hne with ⟨t, ht, htt⟩
      have : policy.allowedTokens.any
          (fun t => jsToLower t == jsToLower invoice.token) = true :=
        List.any_eq_true.mpr ⟨t, ht, by simpa using htt⟩
      simp [this]

/-- C4: policy enforcement succeeds iff all seven checks pass, and a failure
reports the reason of the earliest failing check in the documented order (so an
empty `allowedRecipients` or `allowedTokens` list restricts nothing). -/
theorem validateInvoiceAgainstPolicy_spec (cfgChainId : Int)
    (invoice : InvoiceV1) (policy : DelegationPolicy) (payer : String)
    (now : Int) :
    (validateInvoiceAgainstPolicy cfgChainId invoice policy payer now = .ok ()
      ↔ ∀ i, policyCheckPasses cfgChainId invoice policy payer now i) ∧
    (∀ v, validateInvoiceAgainstPolicy cfgChainId invoice policy payer now
        = .error v →
      ¬ policyCheckPasses cfgChainId invoice policy payer now
          (violationIndex v) ∧
      ∀ j < violationIndex v,
        policyCheckPasses cfgChainId invoice policy payer now j) := by
  unfold validateInvoiceAgainstPolicy
  by_cases h0 : invoice.chainId = cfgChainId
  case neg =>
    rw [if_pos h0]
    refine ⟨⟨fun h => Except.noConfusion h, fun hall => absurd (hall 0) h0⟩, ?_⟩
    intro v hv
    injection hv with hv; subst hv
    refine ⟨h0, ?_⟩
    intro j hj
    simp only [violationIndex] at hj
    omega
  case pos =>
  rw [if_neg (by simpa using h0)]
  by_cases h1 : invoice.dueAt < now
  case pos =>
    rw [if_pos h1]
    have h1' : ¬ policyCheckPasses cfgChainId invoice policy payer now 1 := by
      simpa [policyCheckPasses] using h1
    refine ⟨⟨fun h => Except.noConfusion h, fun hall => absurd (hall 1) h1'⟩, ?_⟩
    intro v hv
    injection hv with hv; subst hv
    refine ⟨h1', ?_⟩
    intro j hj
    simp only [violationIndex] at hj
    interval_cases j
    · exact h0
  case neg =>
  rw [if_neg h1]
  have h1' : policyCheckPasses cfgChainId invoice policy payer now 1 := by
    simpa [policyCheckPasses] using h1
  by_cases h2 : policy.expiresAt < now
  case pos =>
    rw [if_pos h2]
    have h2' : ¬ policyCheckPasses cfgChainId invoice policy payer now 2 := by
      simpa [policyCheckPasses] using h2
    refine ⟨⟨fun h => Except.noConfusion h, fun hall => absurd (hall 2) h2'⟩, ?_⟩
    intro v hv
    injection hv with hv; subst hv
    refine ⟨h2', ?_⟩
    intro j hj
    simp only [violationIndex] at hj
    interval_cases j
    · exact h0
    · exact h1'
  case neg =>
  rw [if_neg h2]
  have h2' : policyCheckPasses cfgChainId invoice policy payer now 2 := by
    simpa [policyCheckPasses] using h2
  by_cases h3 : (match invoice.payer with
      | none => false
      | some p => p ≠ "" && jsToLower p ≠ jsToLower payer) = true
  case pos =>
    rw [if_pos h3]
    have h3' : ¬ policyCheckPasses cfgChainId invoice policy payer now 3 := by
      intro hc
      have := (payer_cond_iff invoice payer).mpr hc
      rw [h3] at this; cases this
    refine ⟨⟨fun h => Except.noConfusion h, fun hall => absurd (hall 3) h3'⟩, ?_⟩
    intro v hv
    injection hv with hv; subst hv
    refine ⟨h3', ?_⟩
    intro j hj
    simp only [violationIndex] at hj
    interval_cases j
    · exact h0
    · exact h1'
    · exact h2'
  case neg =>
  rw [if_neg h3]
  have h3' : policyCheckPasses cfgChainId invoice policy payer now 3 :=
    (payer_cond_iff invoice payer).mp (Bool.eq_false_iff.mpr h3)
  by_cases h4 : strToNat invoice.amount > strToNat policy.maxAmount
  case pos =>
    rw [if_pos h4]
    have h4' : ¬ policyCheckPasses cfgChainId invoice policy payer now 4 := by
      simpa [policyCheckPasses] using h4
    refine ⟨⟨fun h => Except.noConfusion h, fun hall => absurd (hall 4) h4'⟩, ?_⟩
    intro v hv
    injection hv with hv; subst hv
    refine ⟨h4', ?_⟩
    intro j hj
    simp only [violationIndex] at hj
    interval_cases j
    · exact h0
    · exact h1'
    · exact h2'
    · exact h3'
  case neg =>
  rw [if_neg h4]
  have h4' : policyCheckPasses cfgChainId invoice policy payer now 4 := by
    simpa [policyCheckPasses] using h4
  by_cases h5 : (policy.allowedRecipients.length > 0 &&
      !(policy.allowedRecipients.any
          (fun r => jsToLower r == jsToLower invoice.recipient))) = true
  case pos =>
    rw [if_pos h5]
    have h5' : ¬ policyCheckPasses cfgChainId invoice policy payer now 5 := by
      intro hc
      have := (recip_cond_iff invoice policy).mpr hc
      rw [h5] at this; cases this
    refine ⟨⟨fun h => Except.noConfusion h, fun hall => absurd (hall 5) h5'⟩, ?_⟩
    intro v hv
    injection hv with hv; subst hv
    refine ⟨h5', ?_⟩
    intro j hj
    simp only [violationIndex] at hj
    interval_cases j
    · exact h0
    · exact h1'
    · exact h2'
    · exact h3'
    · exact h4'
  case neg =>
  rw [if_neg h5]
  have h5' : policyCheckPasses cfgChainId invoice policy payer now 5 :=
    (recip_cond_iff invoice policy).mp (Bool.eq_false_iff.mpr h5)
  by_cases h6 : (policy.allowedTokens.length > 0 &&
      !(policy.allowedTokens.any
          (fun t => jsToLower t == jsToLower invoice.token))) = true
  case pos =>
    rw [if_pos h6]
    have h6' : ¬ policyCheckPasses cfgChainId invoice policy payer now 6 := by
      intro hc
      have := (token_cond_iff invoice policy).mpr hc
      rw [h6] at this; cases this
    refine ⟨⟨fun h => Except.noConfusion h, fun hall => absurd (hall 6) h6'⟩, ?_⟩
    intro v hv
    injection hv with hv; subst hv
    refine ⟨h6', ?_⟩
    intro j hj
    simp only [violationIndex] at hj
    interval_cases j
    · exact h0
    · exact h1'
    · exact h2'
    · exact h3'
    · exact h4'
    · exact h5'
  case neg =>
  rw [if_neg h6]
  have h6' : policyCheckPasses cfgChainId invoice policy payer now 6 :=
    (token_cond_iff invoice policy).mp (Bool.eq_false_iff.mpr h6)
  refine ⟨⟨fun _ => ?_, fun _ => rfl⟩, by rintro v hv; cases hv⟩
  intro i
  match i with
  | 0 => exact h0
  | 1 => exact h1'
  | 2 => exact h2'
  | 3 => exact h3'
  | 4 => exact h4'
  | 5 => exact h5'
  | 6 => exact h6'
  | n + 7 => simp [policyCheckPasses]

/-- Witness: a concrete invoice and policy passing all seven checks is
accepted, and raising the amount above the budget is rejected with the
`overBudget` reason. -/
theorem validateInvoiceAgainstPolicy_spec_witness :
    validateInvoiceAgainstPolicy 42431
      { version := "tempo.invoice.v1", invoiceId := "INV-1", issuedAt := 10,
        dueAt := 100, chainId := 42431, merchant := "0xm", recipient := "0xr",
        payer := none, token := "0xt", amount := "5", memo := "0xmm",
        description := "d", merchantReference := none, purpose := none,
        lineItems := none, metadata := none, merchantSig := "0xs" }
      { owner := "0xo", maxAmount := "7", allowedRecipients := [],
        allowedTokens := [], expiresAt := 100, updatedAt := 0 }
      "0xo" 50 = .ok () := by
  have h := (validateInvoiceAgainstPolicy_spec 42431
    { version := "tempo.invoice.v1", invoiceId := "INV-1", issuedAt := 10,
      dueAt := 100, chainId := 42431, merchant := "0xm", recipient := "0xr",
      payer := none, token := "0xt", amount := "5", memo := "0xmm",
      description := "d", merchantReference := none, purpose := none,
      lineItems := none, metadata := none, merchantSig := "0xs" }
    { owner := "0xo", maxAmount := "7", allowedRecipients := [],
      allowedTokens := [], expiresAt := 100, updatedAt := 0 }
    "0xo" 50).1
  apply h.mpr
  intro i
  match i with
  | 0 => rfl
  | 1 => exact (by decide : (100:Int) ≥ 50)
  | 2 => exact (by decide : (100:Int) ≥ 50)
  | 3 => rintro p hp; cases hp
  | 4 => exact (by decide : strToNat "5" ≤ strToNat "7")
  | 5 => rintro h; cases h rfl
  | 6 => rintro h; cases h rfl
  | n + 7 => simp [policyCheckPasses]


/-! ### Merchant order state (`src/tests/invoice.test.ts`, merchant server
section: `Order`, `confirmSettlement`, `/api/confirm`, `/api/invoices`) -/

/-- `OrderStatus` of the merchant server. -/
inductive OrderStatus where
  | pending
  | confirmed
deriving DecidableEq, Repr

/-- The merchant's `Order` record binding an issued invoice to settlement
state. -/
structure Order where
  status : OrderStatus
  listingId : Option String
  invoice : InvoiceV1
  txHash : Option String
  confirmedAt : Option Int
deriving DecidableEq, Repr

/-- Body of a confirmation request (`{invoiceId?, orderId?, txHash?}`). -/
structure ConfirmBody where
  invoiceId : Option String
  orderId : Option String
  txHash : Option String
deriving DecidableEq, Repr

/-- A transaction receipt as consumed by `confirmSettlement`: viem's
`getTransactionReceipt` result restricted to the fields the code reads. -/
structure Receipt where
  status : String
  logs : List TransferEvent
deriving DecidableEq, Repr

/-- The possible responses of the confirmation endpoints, one constructor per
`return` in the source (HTTP status and error code noted in comments). -/
inductive ConfirmResponse where
  /-- 400 `MISSING_CONFIRMATION_FIELDS` -/
  | missingFields
  /-- 404 `INVOICE_NOT_FOUND` -/
  | notFound
  /-- 200 with `idempotentReplay: true` -/
  | replay (invoiceId : String) (txHash : String)
  /-- 409 `INVOICE_ALREADY_CONFIRMED`, reporting the stored hash -/
  | alreadyConfirmedConflict (existingTxHash : Option String)
  /-- 400 `TRANSACTION_FAILED` -/
  | txFailed
  /-- 400 `SETTLEMENT_MISMATCH` -/
  | settlementMismatch
  /-- 200 with `idempotentReplay: false` -/
  | confirmedOk (invoiceId : String) (txHash : String)
  /-- 400 `TRANSACTION_NOT_FOUND_OR_INVALID` (the `catch` branch) -/
  | txNotFound
  /-- 401 `UNAUTHORIZED_SETTLEMENT_CONFIRM` -/
  | unauthorized
  /-- 400 `BAD_JSON` -/
  | badJson
deriving DecidableEq, Repr

/-- `confirmSettlement(c, body)` from the merchant server, acting on the keyed
order map.  The external `getTransactionReceipt` call is a parameter `ledger`
(`none` models the call throwing, i.e. the `catch` branch).  JavaScript
truthiness of the id and hash strings (empty string is falsy) is modelled
explicitly. -/
def confirmSettlement (orders : List (String × Order)) (body : ConfirmBody)
    (ledger : Option Receipt) (now : Int) :
    ConfirmResponse × List (String × Order) :=
  match body.invoiceId.orElse (fun _ => body.orderId) with
  | none => (.missingFields, orders)
  | some invoiceId =>
    if invoiceId = "" then (.missingFields, orders)
    else
      match body.txHash with
      | none => (.missingFields, orders)
      | some tx =>
        if tx = "" then (.missingFields, orders)
        else
          match mapLookup orders invoiceId with
          | none => (.notFound, orders)
          | some order =>
            if order.status = .confirmed then
              if order.txHash = some tx then
                (.replay invoiceId tx, orders)
              else
                (.alreadyConfirmedConflict order.txHash, orders)
            else
              match ledger with
              | none => (.txNotFound, orders)
              | some receipt =>
                if receipt.status ≠ "success" then (.txFailed, orders)
                else
                  match matchSettlement order.invoice receipt.logs with
                  | none => (.settlementMismatch, orders)
                  | some _ =>
                      (.confirmedOk order.invoice.invoiceId tx,
                       mapSet orders invoiceId
                         { order with status := .confirmed, txHash := some tx,
                                      confirmedAt := some now })

/-- C3: the pending-to-confirmed transition happens at most once.  For an
already-confirmed order, a confirmation carrying the stored transaction hash
is answered as an idempotent replay and a confirmation carrying any other
hash is answered with a 409 conflict; in both cases the stored order map —
status, txHash and confirmedAt included — is completely unchanged. -/
theorem confirmSettlement_already_confirmed (orders : List (String × Order))
    (invoiceId tx : String) (oid : Option String) (order : Order)
    (ledger : Option Receipt) (now : Int)
    (hiid : invoiceId ≠ "") (htx : tx ≠ "")
    (hfound : mapLookup orders invoiceId = some order)
    (hconfirmed : order.status = .confirmed) :
    (order.txHash = some tx →
      confirmSettlement orders ⟨some invoiceId, oid, some tx⟩ ledger now =
        (.replay invoiceId tx, orders)) ∧
    (order.txHash ≠ some tx →
      confirmSettlement orders ⟨some invoiceId, oid, some tx⟩ ledger now =
        (.alreadyConfirmedConflict order.txHash, orders)) := by
  constructor
  · intro hsame
    simp [confirmSettlement, Option.orElse, hiid, htx, hfound, hconfirmed,
      hsame]
  · intro hdiff
    simp [confirmSettlement, Option.orElse, hiid, htx, hfound, hconfirmed,
      hdiff]

/-- A concrete invoice used by the witnesses below. -/
def sampleInvoice : InvoiceV1 :=
  { version := "tempo.invoice.v1", invoiceId := "INV-1", issuedAt := 1,
    dueAt := 2, chainId := 42431, merchant := "0xm", recipient := "0xr",
    payer := none, token := "0xt", amount := "5", memo := "0xmm",
    description := "d", merchantReference := none, purpose := none,
    lineItems := none, metadata := none, merchantSig := "0xs" }

/-- A concrete already-confirmed order holding `sampleInvoice`. -/
def sampleConfirmedOrder : Order :=
  { status := .confirmed, listingId := none, invoice := sampleInvoice,
    txHash := some "0xaaa", confirmedAt := some 7 }

/-- Witness for C3: a concrete confirmed order replays on the stored hash and
conflicts on a different hash, with the stored map untouched both times. -/
theorem confirmSettlement_already_confirmed_witness :
    (confirmSettlement [("INV-1", sampleConfirmedOrder)]
        ⟨some "INV-1", none, some "0xaaa"⟩ none 9 =
      (.replay "INV-1" "0xaaa", [("INV-1", sampleConfirmedOrder)])) ∧
    (confirmSettlement [("INV-1", sampleConfirmedOrder)]
        ⟨some "INV-1", none, some "0xbbb"⟩ none 9 =
      (.alreadyConfirmedConflict (some "0xaaa"),
        [("INV-1", sampleConfirmedOrder)])) := by
  constructor
  · exact (confirmSettlement_already_confirmed [("INV-1", sampleConfirmedOrder)]
      "INV-1" "0xaaa" none sampleConfirmedOrder none 9 (by decide) (by decide)
      (by rfl) rfl).1 rfl
  · exact (confirmSettlement_already_confirmed [("INV-1", sampleConfirmedOrder)]
      "INV-1" "0xbbb" none sampleConfirmedOrder none 9 (by decide) (by decide)
      (by rfl) rfl).2 (by decide)

/-! ### C8 — settlement-confirmation authentication
(`requireSettlementAuthOrError` and `app.post('/api/confirm')`) -/

/-- `requireSettlementAuthOrError(c)`.  `cfgToken` is
`process.env.MERCHANT_CONFIRM_TOKEN?.trim()` (`none` = variable unset); the
guard `if (!MERCHANT_CONFIRM_TOKEN) return undefined` also fires on an empty
trimmed string, which is modelled by the explicit empty-string branch.
`header` is the `x-merchant-confirm-token` request header. -/
def requireSettlementAuthOrError (cfgToken : Option String)
    (header : Option String) : Option ConfirmResponse :=
  match cfgToken with
  | none => none
  | some t =>
    if t = "" then none
    else if header = some t then none
    else some .unauthorized

/-- The `/api/confirm` handler after the rate-limit check: run the auth check,
then parse the body (`none` models invalid JSON), then `confirmSettlement`. -/
def postConfirm (cfgToken : Option String) (header : Option String)
    (orders : List (String × Order)) (body : Option ConfirmBody)
    (ledger : Option Receipt) (now : Int) :
    ConfirmResponse × List (String × Order) :=
  match requireSettlementAuthOrError cfgToken header with
  | some e => (e, orders)
  | none =>
    match body with
    | none => (.badJson, orders)
    | some b => confirmSettlement orders b ledger now

/-- A ledger event that settles `sampleInvoice` exactly. -/
def sampleEvent : TransferEvent :=
  { address := "0xt", from_ := "0xp", to_ := "0xr", amount := 5,
    memo := "0xmm" }

/-- A pending order holding `sampleInvoice`. -/
def samplePendingOrder : Order :=
  { status := .pending, listingId := none, invoice := sampleInvoice,
    txHash := none, confirmedAt := none }

/-- Counterexample to C8: with no confirm token configured, a confirmation
request carrying no credential at all is fully processed — the auth check
passes, settlement matching runs, and the order is moved to confirmed — rather
than being rejected as a fatal misconfiguration. -/
theorem postConfirm_open_when_unconfigured :
    requireSettlementAuthOrError none none = none ∧
    postConfirm none none [("INV-1", samplePendingOrder)]
        (some ⟨some "INV-1", none, some "0xccc"⟩)
        (some { status := "success", logs := [sampleEvent] }) 9 =
      (.confirmedOk "INV-1" "0xccc",
       [("INV-1", { status := .confirmed, listingId := none,
                    invoice := sampleInvoice, txHash := some "0xccc",
                    confirmedAt := some 9 })]) := by
  constructor
  · rfl
  · decide

/-- C8 (amended): when a confirm token is configured (non-empty), any request
whose credential header does not exactly match it is answered 401 with the
order store untouched — settlement matching never runs; when no token is
configured, the handler serves the request without authentication, passing it
straight to `confirmSettlement`. -/
theorem postConfirm_auth_spec (t : String) (header : Option String)
    (orders : List (String × Order)) (body : Option ConfirmBody)
    (ledger : Option Receipt) (now : Int)
    (ht : t ≠ "") (hmismatch : header ≠ some t) :
    postConfirm (some t) header orders body ledger now =
      (.unauthorized, orders) ∧
    (∀ (h' : Option String) (b : ConfirmBody),
      postConfirm none h' orders (some b) ledger now =
        confirmSettlement orders b ledger now) := by
  constructor
  · simp [postConfirm, requireSettlementAuthOrError, ht, hmismatch]
  · intro h' b
    rfl

/-- Witness for the amended C8: a concrete mismatching credential is rejected
with the store unchanged. -/
theorem postConfirm_auth_spec_witness :
    postConfirm (some "secret") (some "wrong")
        [("INV-1", samplePendingOrder)]
        (some ⟨some "INV-1", none, some "0xccc"⟩) none 9 =
      (.unauthorized, [("INV-1", samplePendingOrder)]) :=
  (postConfirm_auth_spec "secret" (some "wrong")
    [("INV-1", samplePendingOrder)]
    (some ⟨some "INV-1", none, some "0xccc"⟩) none 9
    (by decide) (by decide)).1

/-! ### C7 — invoice-creation idempotency (`app.post('/api/invoices')`) -/

/-- The merchant's `IdempotencyRecord`. -/
structure IdempotencyRecord where
  requestHash : String
  invoiceId : String
  createdAt : Int
deriving DecidableEq, Repr

/-- The merchant's keyed state: the `orders` map and the
`invoicesByIdempotencyKey` map. -/
structure MerchantState where
  orders : List (String × Order)
  idem : List (String × IdempotencyRecord)
deriving DecidableEq, Repr

/-- Responses of `POST /api/invoices`, one constructor per `return`. -/
inductive InvoiceResponse where
  /-- 200 with `idempotentReplay: false` -/
  | created (invoice : InvoiceV1)
  /-- 200 with `idempotentReplay: true`, replaying the stored invoice -/
  | replayed (invoice : InvoiceV1)
  /-- 409 `IDEMPOTENCY_KEY_REUSED_WITH_DIFFERENT_PAYLOAD` -/
  | conflict
  /-- 500 `INVOICE_LOOKUP_FAILED` -/
  | lookupFailed
  /-- 400 `INVALID_INVOICE_INPUT` (issuance threw) -/
  | invalidInput
deriving DecidableEq, Repr

/-- The idempotency section of `app.post('/api/invoices')`, acting after the
rate-limit, body-validation and key-format checks.  `requestHash` is the
result of `hashInvoiceRequest(request, payer)`; `issued` is the outcome the
external `issueInvoice` would produce if executed (`none` models a thrown
error, in which case nothing was stored); `listingId` is the resolved
listing. -/
def postInvoice (st : MerchantState) (key : Option String)
    (requestHash : String) (issued : Option InvoiceV1)
    (listingId : Option String) (now : Int) :
    InvoiceResponse × MerchantState :=
  let issuePath :=
    match issued with
    | none => (.invalidInput, st)
    | some inv =>
        let newOrder : Order :=
          { status := .pending, listingId := listingId, invoice := inv,
            txHash := none, confirmedAt := none }
        let afterOrder : MerchantState :=
          { st with orders := mapSet st.orders inv.invoiceId newOrder }
        let newRecord : IdempotencyRecord :=
          { requestHash := requestHash, invoiceId := inv.invoiceId,
            createdAt := now }
        let afterIdem : MerchantState :=
          match key with
          | some k =>
              { afterOrder with idem := mapSet afterOrder.idem k newRecord }
          | none => afterOrder
        (.created inv, afterIdem)
  match key with
  | some k =>
      match mapLookup st.idem k with
      | some record =>
          if record.requestHash ≠ requestHash then (.conflict, st)
          else
            match mapLookup st.orders record.invoiceId with
            | none => (.lookupFailed, st)
            | some existingOrder => (.replayed existingOrder.invoice, st)
      | none => issuePath
  | none => issuePath

/-- C7: with an idempotency key, the first request executes issuance and
answers `idempotentReplay=false`, storing the order and the idempotency
record; a later request with the same key and the same request hash replays
the stored invoice with `idempotentReplay=true` without executing issuance
(the outcome is the same for every possible `issued` value and the state is
untouched); and a later request with the same key but a different request hash
is a 409 conflict that neither creates an invoice nor modifies any stored
record. -/
theorem postInvoice_idempotency (st : MerchantState) (k requestHash : String)
    (issued : Option InvoiceV1) (listingId : Option String) (now : Int) :
    (∀ inv, mapLookup st.idem k = none → issued = some inv →
      postInvoice st (some k) requestHash issued listingId now =
        (.created inv,
         { orders := mapSet st.orders inv.invoiceId
             { status := .pending, listingId := listingId, invoice := inv,
               txHash := none, confirmedAt := none },
           idem := mapSet st.idem k
             { requestHash := requestHash, invoiceId := inv.invoiceId,
               createdAt := now } })) ∧
    (∀ record existingOrder, mapLookup st.idem k = some record →
      record.requestHash = requestHash →
      mapLookup st.orders record.invoiceId = some existingOrder →
      postInvoice st (some k) requestHash issued listingId now =
        (.replayed existingOrder.invoice, st)) ∧
    (∀ record, mapLookup st.idem k = some record →
      record.requestHash ≠ requestHash →
      postInvoice st (some k) requestHash issued listingId now =
        (.conflict, st)) := by
  refine ⟨?_, ?_, ?_⟩
  · intro inv hnone hissued
    subst hissued
    simp [postInvoice, hnone]
  · intro record existingOrder hrec hhash horder
    simp [postInvoice, hrec, hhash, horder]
  · intro record hrec hhash
    simp [postInvoice, hrec, hhash]

/-- Witness for C7: a concrete state exercises all three branches — fresh key
creates, matching hash replays without state change, differing hash
conflicts. -/
theorem postInvoice_idempotency_witness :
    (postInvoice ⟨[], []⟩ (some "K") "h1" (some sampleInvoice) none 3 =
      (.created sampleInvoice,
       { orders := [("INV-1", samplePendingOrder)],
         idem := [("K", ⟨"h1", "INV-1", 3⟩)] })) ∧
    (postInvoice
        ⟨[("INV-1", samplePendingOrder)], [("K", ⟨"h1", "INV-1", 3⟩)]⟩
        (some "K") "h1" none none 4 =
      (.replayed sampleInvoice,
       ⟨[("INV-1", samplePendingOrder)], [("K", ⟨"h1", "INV-1", 3⟩)]⟩)) ∧
    (postInvoice
        ⟨[("INV-1", samplePendingOrder)], [("K", ⟨"h1", "INV-1", 3⟩)]⟩
        (some "K") "h2" (some sampleInvoice) none 4 =
      (.conflict,
       ⟨[("INV-1", samplePendingOrder)], [("K", ⟨"h1", "INV-1", 3⟩)]⟩)) := by
  refine ⟨?_, ?_, ?_⟩
  · exact (postInvoice_idempotency ⟨[], []⟩ "K" "h1" (some sampleInvoice)
      none 3).1 sampleInvoice rfl rfl
  · exact (postInvoice_idempotency _ "K" "h1" none none 4).2.1
      ⟨"h1", "INV-1", 3⟩ samplePendingOrder (by rfl) rfl (by rfl)
  · exact (postInvoice_idempotency _ "K" "h2" (some sampleInvoice) none 4).2.2
      ⟨"h1", "INV-1", 3⟩ (by rfl) (by decide)

/-! ### C2 — memo derivation (`createInvoiceMemo` in `src/shared/invoice.ts`
and in `src/api/invoices.ts`) -/

/-- Standard UTF-8 encoding of one character (RFC 3629), modelling both
`Buffer.from(s, 'utf8')` and viem's `stringToHex`. -/
def utf8CharBytes (c : Char) : List Nat :=
  let n := c.toNat
  if n < 128 then [n]
  else if n < 2048 then [192 + n / 64, 128 + n % 64]
  else if n < 65536 then
    [224 + n / 4096, 128 + (n / 64) % 64, 128 + n % 64]
  else
    [240 + n / 262144, 128 + (n / 4096) % 64, 128 + (n / 64) % 64,
     128 + n % 64]

/-- UTF-8 byte sequence of a string. -/
def utf8Bytes (s : String) : List Nat :=
  s.toList.flatMap utf8CharBytes

/-- Lower-case hex digit for a value below 16. -/
def hexDigitChar (n : Nat) : Char :=
  if n < 10 then Char.ofNat (48 + n) else Char.ofNat (87 + n)

/-- Two lower-case hex digits of one byte. -/
def byteHexChars (b : Nat) : List Char :=
  [hexDigitChar (b / 16), hexDigitChar (b % 16)]

/-- Lower-case hex spelling of a byte sequence (character list). -/
def bytesHexChars (bs : List Nat) : List Char :=
  bs.flatMap byteHexChars

/-- `createInvoiceMemo` of the serverless handler `src/api/invoices.ts`:
`Buffer.from(invoiceId, 'utf8').toString('hex')`, append 64 `'0'`s, take the
first 64 hex characters, prefix `0x`. -/
def createInvoiceMemoApi (invoiceId : String) : String :=
  let hex := bytesHexChars (utf8Bytes invoiceId)
  "0x" ++ String.mk ((hex ++ List.replicate 64 '0').take 64)

/-- `createInvoiceMemo` of `src/shared/invoice.ts`:
`pad(stringToHex(invoiceId), { size: 32 })`.  viem's `pad` defaults to
`dir: 'left'`, i.e. `padStart`, and throws `SizeExceedsPaddingSizeError` when
the hex spelling is longer than 64 digits; the throw is modelled as `none`. -/
def createInvoiceMemoShared (invoiceId : String) : Option String :=
  let hex := bytesHexChars (utf8Bytes invoiceId)
  if hex.length > 64 then none
  else some ("0x" ++ String.mk (List.replicate (64 - hex.length) '0' ++ hex))

/-- The memo derivation exactly as the specification words it: encode the
invoiceId as UTF-8, right-pad with zero bytes to exactly 32 bytes, truncating
to the first 32 bytes when longer. -/
def deriveMemoSpec (invoiceId : String) : String :=
  "0x" ++ String.mk (bytesHexChars
    ((utf8Bytes invoiceId ++ List.replicate 32 0).take 32))

theorem length_bytesHexChars (bs : List Nat) :
    (bytesHexChars bs).length = 2 * bs.length := by
  induction bs with
  | nil => rfl
  | cons b t ih =>
      simp only [bytesHexChars, List.flatMap_cons, List.length_append] at *
      simp [byteHexChars, ih]
      omega

theorem bytesHexChars_append (bs cs : List Nat) :
    bytesHexChars (bs ++ cs) = bytesHexChars bs ++ bytesHexChars cs := by
  simp [bytesHexChars]

theorem bytesHexChars_replicate_zero (n : Nat) :
    bytesHexChars (List.replicate n 0) = List.replicate (2 * n) '0' := by
  induction n with
  | zero => rfl
  | succ m ih =>
      have h2 : 2 * (m + 1) = 2 * m + 1 + 1 := by omega
      simp only [bytesHexChars, List.replicate_succ, List.flatMap_cons] at ih ⊢
      rw [ih, h2, List.replicate_succ, List.replicate_succ]
      rfl

theorem bytesHexChars_take (bs : List Nat) (k : Nat) :
    bytesHexChars (bs.take k) = (bytesHexChars bs).take (2 * k) := by
  induction bs generalizing k with
  | nil => simp [bytesHexChars]
  | cons b t ih =>
      cases k with
      | zero => simp [bytesHexChars]
      | succ m =>
          simp only [List.take_succ_cons, bytesHexChars, List.flatMap_cons]
          rw [List.take_append_eq_append_take]
          have hlen : (byteHexChars b).length = 2 := rfl
          have h1 : (byteHexChars b).take (2 * (m + 1)) = byteHexChars b :=
            List.take_of_length_le (by rw [hlen]; omega)
          rw [h1, hlen]
          have h2 : 2 * (m + 1) - 2 = 2 * m := by omega
          rw [h2]
          simp only [bytesHexChars] at ih
          rw [ih]

theorem memoPad_lists_eq (bs : List Nat) :
    (bytesHexChars bs ++ List.replicate 64 '0').take 64 =
    bytesHexChars ((bs ++ List.replicate 32 0).take 32) := by
  rw [List.take_append_eq_append_take, List.take_replicate,
      List.take_append_eq_append_take, List.take_replicate,
      bytesHexChars_append, bytesHexChars_replicate_zero,
      bytesHexChars_take, length_bytesHexChars]
  have h32 : (2 : Nat) * 32 = 64 := by omega
  rw [h32]
  congr 2
  omega

/-- Counterexample to C2: for the invoiceId `"A"` the serverless handler
right-pads (`0x4100…00`) while the shared module left-pads (`0x00…0041`), so
the two implementations do not produce the same memo. -/
theorem createInvoiceMemo_implementations_disagree :
    createInvoiceMemoApi "A" =
      "0x4100000000000000000000000000000000000000000000000000000000000000" ∧
    createInvoiceMemoShared "A" =
      some "0x0000000000000000000000000000000000000000000000000000000000000041" ∧
    some (createInvoiceMemoApi "A") ≠ createInvoiceMemoShared "A" := by
  refine ⟨?_, ?_, ?_⟩ <;> decide

/-- C2 (amended): the serverless `createInvoiceMemo` implements exactly the
claimed derivation — UTF-8 encode, right-pad with zero bytes to 32 bytes,
truncate past 32 — but the shared `createInvoiceMemo` instead left-pads with
zero bytes (viem `pad` default) and rejects invoiceIds whose UTF-8 encoding
exceeds 32 bytes, so the two implementations do not agree in general. -/
theorem createInvoiceMemo_spec (invoiceId : String) :
    createInvoiceMemoApi invoiceId = deriveMemoSpec invoiceId ∧
    createInvoiceMemoShared invoiceId =
      (if (utf8Bytes invoiceId).length ≤ 32 then
        some ("0x" ++ String.mk
          (List.replicate (64 - 2 * (utf8Bytes invoiceId).length) '0' ++
            bytesHexChars (utf8Bytes invoiceId)))
      else none) := by
  constructor
  · show "0x" ++ String.mk
        ((bytesHexChars (utf8Bytes invoiceId) ++ List.replicate 64 '0').take 64)
      = deriveMemoSpec invoiceId
    unfold deriveMemoSpec
    rw [memoPad_lists_eq]
  · have hlen := length_bytesHexChars (utf8Bytes invoiceId)
    simp only [createInvoiceMemoShared]
    by_cases h : (utf8Bytes invoiceId).length ≤ 32
    · rw [if_neg (by omega), if_pos h, hlen]
    · rw [if_pos (by omega), if_neg h]

/-! ### C9 — guardian delegation-policy storage (`src/unnamed/part_000`) -/

theorem toNat_ofNat_of_small {n : Nat} (h : n < 55296) :
    (Char.ofNat n).toNat = n := by
  simp [Char.ofNat, Nat.isValidChar, h, Char.ofNatAux, Char.toNat,
    UInt32.toNat, UInt32.ofNatTruncate]

theorem asciiLowerChar_not_upper (c : Char) :
    isUpperAscii (asciiLowerChar c) = false := by
  unfold asciiLowerChar
  by_cases h : isUpperAscii c = true
  · rw [if_pos h]
    have hb : 65 ≤ c.toNat ∧ c.toNat ≤ 90 := by
      simpa [isUpperAscii] using h
    have hv : c.toNat + 32 < 55296 := by omega
    have ht := toNat_ofNat_of_small hv
    simp only [isUpperAscii, ht, Bool.and_eq_false_iff,
      decide_eq_false_iff_not]
    omega
  · rw [if_neg h]
    exact Bool.eq_false_iff.mpr h

/-- A string produced by `jsToLower` contains no upper-case ASCII letter. -/
theorem isAllLower_jsToLower (s : String) :
    isAllLowerString (jsToLower s) = true := by
  unfold isAllLowerString jsToLower
  rw [List.all_eq_true]
  intro c hc
  simp only [String.toList] at hc
  rcases List.mem_map.mp hc with ⟨d, _, rfl⟩
  simp [asciiLowerChar_not_upper]

/-- `normalizeAddress` of the guardian: viem `isAddress` gate, then
lower-case. -/
def normalizeAddress (checksumOk : String → Bool) (value : String) :
    Option String :=
  if isAddress checksumOk value then some (jsToLower value) else none

/-- JavaScript `Set.prototype.add` on a list accumulator: keep first
occurrences, preserving insertion order. -/
def addUniqueEntry (acc : List String) (x : String) : List String :=
  if acc.contains x then acc else acc ++ [x]

/-- `Array.from(new Set(entries))`: deduplicate keeping first occurrences. -/
def dedupeKeepFirst (l : List String) : List String :=
  l.foldl addUniqueEntry []

/-- The per-entry loop of `parseAddressArray`: normalize every entry, failing
on the first invalid address. -/
def normalizeEntries (checksumOk : String → Bool) :
    List String → Option (List String)
  | [] => some []
  | e :: rest =>
    match normalizeAddress checksumOk e with
    | none => none
    | some n =>
      match normalizeEntries checksumOk rest with
      | none => none
      | some l => some (n :: l)

/-- `parseAddressArray(value, field)` of the guardian write handler: absent
field means empty list; more than `MAX_POLICY_LIST_ENTRIES = 50` entries or
any invalid address throws (modelled as `none`); entries are lower-cased and
deduplicated case-insensitively before storage. -/
def parseAddressArray (checksumOk : String → Bool)
    (value : Option (List String)) : Option (List String) :=
  match value with
  | none => some []
  | some entries =>
    if entries.length > 50 then none
    else
      match normalizeEntries checksumOk entries with
      | none => none
      | some l => some (dedupeKeepFirst l)

/-- Typed body of `POST /api/delegations`. -/
structure DelegationWriteBody where
  owner : String
  maxAmount : String
  allowedRecipients : Option (List String)
  allowedTokens : Option (List String)
  expiresAt : Int
deriving DecidableEq, Repr

/-- Responses of the guardian write handler, one constructor per `return`. -/
inductive DelegationWriteResponse where
  /-- 400 `maxAmount must be a positive numeric string` -/
  | badMaxAmount
  /-- 400 `maxAmount exceeds guardian limit` -/
  | maxAmountTooLarge
  /-- 400 from a `parseAddressArray` throw -/
  | invalidAddressList
  /-- 400 `Missing required fields` -/
  | missingFields
  /-- 400 `expiresAt must be within ... seconds from now` -/
  | expiryTooFar
  /-- 200 returning the stored policy -/
  | okPolicy (policy : DelegationPolicy)
deriving DecidableEq, Repr

/-- `MAX_POLICY_DURATION_SECONDS = 365 * 24 * 60 * 60`. -/
def MAX_POLICY_DURATION_SECONDS : Int := 365 * 24 * 60 * 60

/-- The guardian's `app.post('/api/delegations')` handler after the rate-limit
and admin-token checks, with the configured `MAX_POLICY_AMOUNT` and the
current unix time as parameters; returns the response and the updated policy
map.  Validation order follows the source: `maxAmount` format and ceiling,
both address lists, then the combined owner/expiry check, then the horizon. -/
def postDelegation (checksumOk : String → Bool) (maxPolicyAmount : Nat)
    (policies : List (String × DelegationPolicy))
    (body : DelegationWriteBody) (now : Int) :
    DelegationWriteResponse × List (String × DelegationPolicy) :=
  if ¬ (isAmountString body.maxAmount = true) ∨ strToNat body.maxAmount = 0
  then (.badMaxAmount, policies)
  else if strToNat body.maxAmount > maxPolicyAmount then
    (.maxAmountTooLarge, policies)
  else
    match parseAddressArray checksumOk body.allowedRecipients with
    | none => (.invalidAddressList, policies)
    | some allowedRecipients =>
      match parseAddressArray checksumOk body.allowedTokens with
      | none => (.invalidAddressList, policies)
      | some allowedTokens =>
        match normalizeAddress checksumOk body.owner with
        | none => (.missingFields, policies)
        | some owner =>
          if body.expiresAt ≤ now then (.missingFields, policies)
          else if body.expiresAt > now + MAX_POLICY_DURATION_SECONDS then
            (.expiryTooFar, policies)
          else
            let policy : DelegationPolicy :=
              { owner := owner, maxAmount := body.maxAmount,
                allowedRecipients := allowedRecipients,
                allowedTokens := allowedTokens,
                expiresAt := body.expiresAt, updatedAt := now }
            (.okPolicy policy, mapSet policies owner policy)

/-- Responses of `GET /api/delegations/:owner`. -/
inductive DelegationReadResponse where
  /-- 400 `Invalid owner address` -/
  | invalidOwner
  /-- 404 `Policy not found` -/
  | notFound
  /-- 200 with the stored policy -/
  | found (policy : DelegationPolicy)
deriving DecidableEq, Repr

/-- `app.get('/api/delegations/:owner')`: normalize the path parameter, then
look the policy up under the lower-cased key. -/
def getDelegation (checksumOk : String → Bool)
    (policies : List (String × DelegationPolicy)) (ownerParam : String) :
    DelegationReadResponse :=
  match normalizeAddress checksumOk ownerParam with
  | none => .invalidOwner
  | some owner =>
    match mapLookup policies owner with
    | none => .notFound
    | some policy => .found policy

theorem find?_map_replace {β : Type} (m : List (String × β)) (k : String)
    (v : β) :
    ((m.map (fun p => if p.1 == k then (k, v) else p)).find?
        (fun p => p.1 == k)) =
      if (m.find? (fun p => p.1 == k)).isSome then some (k, v) else none := by
  induction m with
  | nil => rfl
  | cons p t ih =>
      by_cases hp : (p.1 == k) = true
      · rw [List.map_cons, if_pos hp]
        rw [List.find?_cons, List.find?_cons, hp]
        simp
      · have hp' : (p.1 == k) = false := Bool.eq_false_iff.mpr hp
        rw [List.map_cons, if_neg hp]
        rw [List.find?_cons, List.find?_cons, hp']
        exact ih

theorem mapLookup_mapSet_self {β : Type} (m : List (String × β)) (k : String)
    (v : β) : mapLookup (mapSet m k v) k = some v := by
  unfold mapSet
  by_cases h : (m.find? (fun p => p.1 == k)).isSome
  · rw [if_pos h]
    unfold mapLookup
    rw [find?_map_replace, if_pos h]
    rfl
  · rw [if_neg h]
    unfold mapLookup
    rw [List.find?_append]
    have hn : m.find? (fun p => p.1 == k) = none := by
      cases hf : m.find? (fun p => p.1 == k) with
      | none => rfl
      | some w => rw [hf] at h; simp at h
    rw [hn]
    simp

theorem mem_foldl_addUnique (l : List String) (acc : List String)
    (a : String) (h : a ∈ l.foldl addUniqueEntry acc) : a ∈ acc ∨ a ∈ l := by
  induction l generalizing acc with
  | nil => exact Or.inl h
  | cons x t ih =>
      rw [List.foldl_cons] at h
      rcases ih (addUniqueEntry acc x) h with h' | h'
      · unfold addUniqueEntry at h'
        by_cases hc : acc.contains x
        · rw [if_pos hc] at h'
          exact Or.inl h'
        · rw [if_neg hc] at h'
          rcases List.mem_append.mp h' with h'' | h''
          · exact Or.inl h''
          · simp at h''
            exact Or.inr (by simp [h''])
      · exact Or.inr (by simp [h'])

theorem normalizeEntries_all_lower (checksumOk : String → Bool)
    (l out : List String) (h : normalizeEntries checksumOk l = some out) :
    ∀ a ∈ out, isAllLowerString a = true := by
  induction l generalizing out with
  | nil =>
      intro a ha
      simp only [normalizeEntries] at h
      injection h with h
      subst h
      cases ha
  | cons e t ih =>
      intro a ha
      simp only [normalizeEntries] at h
      cases hn : normalizeAddress checksumOk e with
      | none => rw [hn] at h; cases h
      | some n =>
          rw [hn] at h
          cases ht : normalizeEntries checksumOk t with
          | none => rw [ht] at h; cases h
          | some lt =>
              rw [ht] at h
              injection h with h
              subst h
              rcases List.mem_cons.mp ha with rfl | ha'
              · unfold normalizeAddress at hn
                by_cases hia : isAddress checksumOk e = true
                · rw [if_pos hia] at hn
                  injection hn with hn
                  subst hn
                  exact isAllLower_jsToLower e
                · rw [if_neg hia] at hn; cases hn
              · exact ih lt ht a ha'

theorem parseAddressArray_all_lower (checksumOk : String → Bool)
    (value : Option (List String)) (out : List String)
    (h : parseAddressArray checksumOk value = some out) :
    ∀ a ∈ out, isAllLowerString a = true := by
  intro a ha
  unfold parseAddressArray at h
  cases value with
  | none =>
      have h' : some ([] : List String) = some out := h
      injection h' with h'
      subst h'
      cases ha
  | some entries =>
      have h' : (if entries.length > 50 then none
          else match normalizeEntries checksumOk entries with
            | none => none
            | some l => some (dedupeKeepFirst l)) = some out := h
      by_cases hl : entries.length > 50
      · rw [if_pos hl] at h'; cases h'
      · rw [if_neg hl] at h'
        cases hn : normalizeEntries checksumOk entries with
        | none => rw [hn] at h'; cases h'
        | some l =>
            rw [hn] at h'
            injection h' with h'
            subst h'
            rcases mem_foldl_addUnique l [] a ha with h'' | h''
            · cases h''
            · exact normalizeEntries_all_lower checksumOk entries l hn a h''

/-- A lower-case 20-byte address used in the guardian examples. -/
def lowerOwnerAddr : String := "0xaaaaaaaaaaaaaaaaaaaaaaaaaaaaaaaaaaaaaaaa"

/-- The same address with the `x` of the `0x` prefix upper-cased — a
case-variant spelling of `lowerOwnerAddr`. -/
def upperXOwnerAddr : String := "0Xaaaaaaaaaaaaaaaaaaaaaaaaaaaaaaaaaaaaaaaa"

/-- The policy stored by the counterexample write below. -/
def storedPolicyExample : DelegationPolicy :=
  { owner := lowerOwnerAddr, maxAmount := "5", allowedRecipients := [],
    allowedTokens := [], expiresAt := 100, updatedAt := 0 }

/-- Counterexample to C9: a write for the all-lower-case owner succeeds and
stores the policy, yet a read using the case-variant spelling whose `0x`
prefix is written `0X` is rejected as an invalid address (the address regex
requires a lower-case `x`), not answered with the stored policy — even when
every checksum test passes. -/
theorem getDelegation_rejects_prefix_case_variant :
    postDelegation (fun _ => true) 1000 [] ⟨lowerOwnerAddr, "5", none, none, 100⟩ 0 =
      (.okPolicy storedPolicyExample, [(lowerOwnerAddr, storedPolicyExample)]) ∧
    jsToLower upperXOwnerAddr = jsToLower lowerOwnerAddr ∧
    getDelegation (fun _ => true) [(lowerOwnerAddr, storedPolicyExample)]
      upperXOwnerAddr = .invalidOwner := by
  refine ⟨?_, ?_, ?_⟩ <;> decide

/-- C9 (amended): after any successful policy write, a read with any spelling
that viem's `isAddress` accepts and that lower-cases to the written owner (the
all-lower-case spelling, or a correctly checksummed mixed-case variant)
returns exactly the stored policy; and every address stored in the policy —
owner, allowedRecipients, allowedTokens — is lower-cased.  Spellings rejected
by `isAddress` (such as an upper-case `0X` prefix, or an invalid checksum) are
answered 400 instead. -/
theorem postDelegation_roundtrip (checksumOk : String → Bool)
    (maxPolicyAmount : Nat) (policies : List (String × DelegationPolicy))
    (body : DelegationWriteBody) (now : Int) (policy : DelegationPolicy)
    (policies' : List (String × DelegationPolicy))
    (hok : postDelegation checksumOk maxPolicyAmount policies body now =
      (.okPolicy policy, policies')) :
    policy.owner = jsToLower body.owner ∧
    (∀ variant, isAddress checksumOk variant = true →
      jsToLower variant = jsToLower body.owner →
      getDelegation checksumOk policies' variant = .found policy) ∧
    isAllLowerString policy.owner = true ∧
    (∀ a ∈ policy.allowedRecipients, isAllLowerString a = true) ∧
    (∀ a ∈ policy.allowedTokens, isAllLowerString a = true) := by
  unfold postDelegation at hok
  by_cases hma : ¬ (isAmountString body.maxAmount = true) ∨
      strToNat body.maxAmount = 0
  · rw [if_pos hma] at hok
    cases hok
  rw [if_neg hma] at hok
  by_cases hml : strToNat body.maxAmount > maxPolicyAmount
  · rw [if_pos hml] at hok
    cases hok
  rw [if_neg hml] at hok
  cases hrec : parseAddressArray checksumOk body.allowedRecipients with
  | none => rw [hrec] at hok; cases hok
  | some allowedRecipients =>
  rw [hrec] at hok
  cases htok : parseAddressArray checksumOk body.allowedTokens with
  | none => rw [htok] at hok; cases hok
  | some allowedTokens =>
  rw [htok] at hok
  cases hown : normalizeAddress checksumOk body.owner with
  | none => rw [hown] at hok; cases hok
  | some owner =>
  rw [hown] at hok
  simp only [] at hok
  by_cases hexp : body.expiresAt ≤ now
  · rw [if_pos hexp] at hok
    cases hok
  rw [if_neg hexp] at hok
  by_cases hfar : body.expiresAt > now + MAX_POLICY_DURATION_SECONDS
  · rw [if_pos hfar] at hok
    cases hok
  rw [if_neg hfar] at hok
  simp only [Prod.mk.injEq, DelegationWriteResponse.okPolicy.injEq] at hok
  obtain ⟨hpol, hst⟩ := hok
  rw [hpol] at hst
  have howner : owner = jsToLower body.owner := by
    unfold normalizeAddress at hown
    by_cases hia : isAddress checksumOk body.owner = true
    · rw [if_pos hia] at hown
      injection hown with h
      exact h.symm
    · rw [if_neg hia] at hown
      cases hown
  have hlk : mapLookup policies' owner = some policy := by
    rw [← hst]
    exact mapLookup_mapSet_self policies owner policy
  refine ⟨?_, ?_, ?_, ?_, ?_⟩
  · rw [← hpol]
    exact howner
  · intro variant hvalid hlow
    unfold getDelegation normalizeAddress
    rw [if_pos hvalid, hlow, ← howner]
    simp only []
    rw [hlk]
  · rw [← hpol]
    show isAllLowerString owner = true
    rw [howner]
    exact isAllLower_jsToLower body.owner
  · rw [← hpol]
    exact parseAddressArray_all_lower checksumOk body.allowedRecipients
      allowedRecipients hrec
  · rw [← hpol]
    exact parseAddressArray_all_lower checksumOk body.allowedTokens
      allowedTokens htok

/-- Witness for the amended C9: the concrete write of
`getDelegation_rejects_prefix_case_variant`, read back with the stored
all-lower-case spelling, returns the stored policy. -/
theorem postDelegation_roundtrip_witness :
    getDelegation (fun _ => false) [(lowerOwnerAddr, storedPolicyExample)]
      lowerOwnerAddr = .found storedPolicyExample := by
  have h := postDelegation_roundtrip (fun _ => false) 1000 []
    ⟨lowerOwnerAddr, "5", none, none, 100⟩ 0 storedPolicyExample
    [(lowerOwnerAddr, storedPolicyExample)] (by decide)
  exact h.2.1 lowerOwnerAddr (by decide) (by decide)

/-! ### C6 — structural invoice validation (`assertInvoiceV1` in
`src/shared/invoice.ts`, `normalizeLineItems` in the merchant server) -/

/-- `sumLineItemTotals(lineItems)`: `reduce` over
`parseAmountString(item.totalAmount)` (every `totalAmount` has already passed
the digit-string check when this runs). -/
def sumLineItemTotals (lineItems : List LineItem) : Nat :=
  lineItems.foldl (fun total item => total + strToNat item.totalAmount) 0

/-- The body of `assertInvoiceV1`'s per-item `for` loop, one `throw` per
constructor of the error string.  JavaScript truthiness is modelled literally:
the `unitAmount` format check is skipped for an empty string (`item.unitAmount
&& !regex.test(...)`). -/
def checkLineItem (item : LineItem) : Except String Unit :=
  if item.title = "" then .error "Invalid line item title"
  else if item.totalAmount = "" ∨ ¬ isAmountString item.totalAmount = true then
    .error "Invalid line item totalAmount"
  else if (match item.unitAmount with
           | some u => u ≠ "" && !isAmountString u
           | none => false) then
    .error "Invalid line item unitAmount"
  else if (match item.quantity with
           | some q => decide (q ≤ 0)
           | none => false) then
    .error "Invalid line item quantity"
  else .ok ()

/-- The per-item loop itself: first failing item aborts. -/
def checkLineItems : List LineItem → Except String Unit
  | [] => .ok ()
  | item :: rest =>
    match checkLineItem item with
    | .error e => .error e
    | .ok _ => checkLineItems rest

/-- The scalar-field checks of `assertInvoiceV1(value)` in source order, on an
already-typed `InvoiceV1` record (the dynamic `typeof` checks hold by
construction in the typed model).  Every `throw` becomes `Except.error` with
the source's message. -/
def invoiceScalarChecks (checksumOk : String → Bool) (invoice : InvoiceV1) :
    Except String Unit :=
  if invoice.version = "" then .error "Missing or invalid invoice field: version"
  else if invoice.invoiceId = "" then .error "Missing or invalid invoice field: invoiceId"
  else if invoice.merchant = "" then .error "Missing or invalid invoice field: merchant"
  else if invoice.recipient = "" then .error "Missing or invalid invoice field: recipient"
  else if invoice.token = "" then .error "Missing or invalid invoice field: token"
  else if invoice.amount = "" then .error "Missing or invalid invoice field: amount"
  else if invoice.memo = "" then .error "Missing or invalid invoice field: memo"
  else if invoice.description = "" then .error "Missing or invalid invoice field: description"
  else if invoice.merchantSig = "" then .error "Missing or invalid invoice field: merchantSig"
  else if invoice.version ≠ INVOICE_VERSION then .error "Unsupported invoice version"
  else if invoice.dueAt ≤ invoice.issuedAt then
    .error "Invoice dueAt must be greater than issuedAt"
  else if ¬ isAddress checksumOk invoice.merchant = true then
    .error "Invalid invoice merchant address"
  else if ¬ isAddress checksumOk invoice.recipient = true then
    .error "Invalid invoice recipient address"
  else if (match invoice.payer with
           | some p => p ≠ "" && !isAddress checksumOk p
           | none => false) then
    .error "Invalid invoice payer address"
  else if ¬ isAmountString invoice.amount = true then
    .error "Invalid invoice amount format"
  else if ¬ memoRegexTest invoice.memo = true then
    .error "Invalid invoice memo format"
  else .ok ()

/-- `assertInvoiceV1(value)`: the scalar checks above, then the `lineItems`
loop and sum check (the trailing metadata loop always passes since `MetaValue`
only carries primitives). -/
def assertInvoiceV1 (checksumOk : String → Bool) (invoice : InvoiceV1) :
    Except String Unit :=
  match invoiceScalarChecks checksumOk invoice with
  | .error e => .error e
  | .ok _ =>
    match invoice.lineItems with
    | none => .ok ()
    | some items =>
      match checkLineItems items with
      | .error e => .error e
      | .ok _ =>
        if items.length > 0 ∧ sumLineItemTotals items ≠ strToNat invoice.amount
        then .error "Invoice amount must equal sum of lineItems[].totalAmount"
        else .ok ()

/-- One item of `normalizeLineItems` in the merchant server, every early
`return null` modelled as `none`; on success the item is rebuilt dropping
falsy optional fields.  The product check `unitAmount * quantity ==
totalAmount` runs only when both fields are (truthily) present. -/
def normalizeLineItem (item : LineItem) : Option LineItem :=
  if ¬ (item.title ≠ "" ∧ item.title.length ≤ 256) then none
  else if item.totalAmount = "" ∨ ¬ isAmountString item.totalAmount = true then
    none
  else if (match item.id with
           | some v => !decide (v ≠ "" ∧ v.length ≤ 128)
           | none => false) then none
  else if (match item.category with
           | some v => !decide (v ≠ "" ∧ v.length ≤ 128)
           | none => false) then none
  else if (match item.unitAmount with
           | some u => !isAmountString u
           | none => false) then none
  else if (match item.quantity with
           | some q => decide (q ≤ 0)
           | none => false) then none
  else if (match item.unitAmount, item.quantity with
           | some u, some q =>
               decide (u ≠ "") && decide (q ≠ 0) &&
                 decide (strToNat u * q.toNat ≠ strToNat item.totalAmount)
           | _, _ => false) then none
  else
    some
      { id := match item.id with
          | some v => if v = "" then none else some v
          | none => none,
        title := item.title,
        category := match item.category with
          | some v => if v = "" then none else some v
          | none => none,
        quantity := item.quantity,
        unitAmount := match item.unitAmount with
          | some u => if u = "" then none else some u
          | none => none,
        totalAmount := item.totalAmount }

/-- The item loop of `normalizeLineItems`. -/
def normalizeLineItemsGo : List LineItem → Option (List LineItem)
  | [] => some []
  | item :: rest =>
    match normalizeLineItem item with
    | none => none
    | some it =>
      match normalizeLineItemsGo rest with
      | none => none
      | some l => some (it :: l)

/-- `normalizeLineItems(value)` of the merchant server (`MAX_LINE_ITEMS =
50`). -/
def normalizeLineItems (items : List LineItem) : Option (List LineItem) :=
  if items.length > 50 then none
  else normalizeLineItemsGo items

/-- A line item whose `unitAmount * quantity` (6) differs from its
`totalAmount` (5). -/
def productMismatchItem : LineItem :=
  { id := none, title := "t", category := none, quantity := some 2,
    unitAmount := some "3", totalAmount := "5" }

/-- An invoice that passes every check of `assertInvoiceV1` while carrying
`productMismatchItem` (the sum invariant holds: 5 = 5). -/
def productMismatchInvoice : InvoiceV1 :=
  { version := "tempo.invoice.v1", invoiceId := "INV-1", issuedAt := 1,
    dueAt := 2, chainId := 42431, merchant := lowerOwnerAddr,
    recipient := lowerOwnerAddr, payer := none, token := lowerOwnerAddr,
    amount := "5",
    memo := "0xaaaaaaaaaaaaaaaaaaaaaaaaaaaaaaaaaaaaaaaaaaaaaaaaaaaaaaaaaaaaaaaa",
    description := "d", merchantReference := none, purpose := none,
    lineItems := some [productMismatchItem], metadata := none,
    merchantSig := "0xs" }

/-- Counterexample to C6: `assertInvoiceV1` accepts an invoice containing a
line item with both `unitAmount` and `quantity` whose product does not equal
its `totalAmount` — the gate never checks the product. -/
theorem assertInvoiceV1_accepts_product_mismatch :
    assertInvoiceV1 (fun _ => false) productMismatchInvoice = .ok () ∧
    productMismatchInvoice.lineItems = some [productMismatchItem] ∧
    productMismatchItem.unitAmount = some "3" ∧
    productMismatchItem.quantity = some 2 ∧
    strToNat "3" * (2 : Int).toNat ≠ strToNat productMismatchItem.totalAmount := by
  refine ⟨by rfl, by rfl, by rfl, by rfl, by decide⟩

/-- If an item carries a mismatching product, `normalizeLineItem` rejects
it. -/
theorem normalizeLineItem_rejects_product_mismatch (item : LineItem)
    (u : String) (q : Int) (hu : item.unitAmount = some u)
    (hq : item.quantity = some q)
    (hprod : strToNat u * q.toNat ≠ strToNat item.totalAmount) :
    normalizeLineItem item = none := by
  unfold normalizeLineItem
  split_ifs with h1 h2 h3 h4 h5 h6 h7
  any_goals rfl
  exfalso
  rw [hu] at h5 h7
  rw [hq] at h6 h7
  have hufmt : isAmountString u = true := by
    cases hfmt : isAmountString u with
    | true => rfl
    | false => exact absurd (by simp [hfmt]) h5
  have hune : u ≠ "" := by
    intro he
    subst he
    simp [isAmountString] at hufmt
  have hqpos : ¬ q ≤ 0 := by
    intro hle
    exact h6 (by simpa using hle)
  apply h7
  simp only [Bool.and_eq_true, decide_eq_true_eq]
  exact ⟨⟨hune, by omega⟩, hprod⟩

/-- A mismatching item anywhere in the list makes the whole loop fail. -/
theorem normalizeLineItemsGo_none (items : List LineItem) (item : LineItem)
    (u : String) (q : Int) (hmem : item ∈ items)
    (hu : item.unitAmount = some u) (hq : item.quantity = some q)
    (hprod : strToNat u * q.toNat ≠ strToNat item.totalAmount) :
    normalizeLineItemsGo items = none := by
  induction items with
  | nil => cases hmem
  | cons it rest ih =>
      rcases List.mem_cons.mp hmem with rfl | hmem'
      · unfold normalizeLineItemsGo
        rw [normalizeLineItem_rejects_product_mismatch _ u q hu hq hprod]
      · unfold normalizeLineItemsGo
        cases hni : normalizeLineItem it with
        | none => rfl
        | some x =>
            rw [ih hmem']

/-- C6 (amended): `assertInvoiceV1` does enforce the aggregate line-item
invariant — every accepted invoice with a non-empty `lineItems` satisfies
`sum(totalAmount) = amount` — but it does not enforce the per-item product
invariant; that check is performed only by the merchant server's
`normalizeLineItems`, which rejects any request list containing an item with
both fields whose product differs from its `totalAmount`. -/
theorem assertInvoiceV1_sum_and_normalize_product (checksumOk : String → Bool) :
    (∀ invoice items, assertInvoiceV1 checksumOk invoice = .ok () →
      invoice.lineItems = some items → items ≠ [] →
      sumLineItemTotals items = strToNat invoice.amount) ∧
    (∀ items item u q, item ∈ items → item.unitAmount = some u →
      item.quantity = some q →
      strToNat u * q.toNat ≠ strToNat item.totalAmount →
      normalizeLineItems items = none) := by
  constructor
  · intro invoice items h hitems hne
    unfold assertInvoiceV1 at h
    cases hs : invoiceScalarChecks checksumOk invoice with
    | error e => rw [hs] at h; exact Except.noConfusion h
    | ok w =>
    rw [hs, hitems] at h
    simp only [] at h
    cases hcheck : checkLineItems items with
    | error e => rw [hcheck] at h; exact Except.noConfusion h
    | ok u =>
        rw [hcheck] at h
        simp only [] at h
        by_cases hcond : items.length > 0 ∧
            sumLineItemTotals items ≠ strToNat invoice.amount
        · rw [if_pos hcond] at h
          exact Except.noConfusion h
        · push_neg at hcond
          have hlen : items.length > 0 := List.length_pos.mpr hne
          exact hcond hlen
  · intro items item u q hmem hu hq hprod
    unfold normalizeLineItems
    by_cases hlen : items.length > 50
    · rw [if_pos hlen]
    · rw [if_neg hlen]
      exact normalizeLineItemsGo_none items item u q hmem hu hq hprod

/-- Witness for the amended C6: a concrete accepted invoice with one line item
has its totals summing to its amount, and a concrete mismatching list is
rejected by `normalizeLineItems`. -/
theorem assertInvoiceV1_sum_and_normalize_product_witness :
    sumLineItemTotals [productMismatchItem] =
      strToNat productMismatchInvoice.amount ∧
    normalizeLineItems [productMismatchItem] = none := by
  constructor
  · exact (assertInvoiceV1_sum_and_normalize_product (fun _ => false)).1
      productMismatchInvoice [productMismatchItem] (by rfl) (by rfl)
      (by decide)
  · exact (assertInvoiceV1_sum_and_normalize_product (fun _ => false)).2
      [productMismatchItem] productMismatchItem "3" 2 (by decide) (by rfl)
      (by rfl) (by decide)

/-! ### C5 — canonical serialization (`canonicalStringify` in
`src/shared/invoice.ts` and `src/api/invoices.ts`) -/

/-- JSON-like values as canonicalized by the repository.  Numbers are
restricted to the integers the repository actually serializes (string-encoded
amounts and addresses are strings by contract; metadata numbers are listing
counts), since `JSON.stringify` on such numbers is plain decimal. -/
inductive JValue where
  | jnull
  | jbool (b : Bool)
  | jnum (n : Int)
  | jstr (s : String)
  | jarr (items : List JValue)
  | jobj (entries : List (String × JValue))

/-- Primary collation weight of a character: case-insensitive (upper-case
ASCII folded to lower case), shifted so that no weight is zero. -/
def primaryWeight (c : Char) : Nat :=
  (if isUpperAscii c then c.toNat + 32 else c.toNat) + 1

/-- Tertiary collation weight: lower case before upper case. -/
def tertiaryWeight (c : Char) : Nat :=
  if isUpperAscii c then 2 else 1

/-- Collation key modelling `String.prototype.localeCompare` under the ICU
root collation restricted to the ASCII data the repository sorts: a primary
pass that compares case-insensitively, then (separated by a 0 that cannot
occur as a weight) a tertiary pass that puts lower case before upper case.
This model agrees with ICU on the facts used below — notably that `"a"`
sorts before `"B"` while raw code-point order puts `"B"` first. -/
def collationKey (s : String) : List Nat :=
  s.toList.map primaryWeight ++ 0 :: s.toList.map tertiaryWeight

/-- Lexicographic order on `Nat` lists (shorter prefix first). -/
def natListLe : List Nat → List Nat → Bool
  | [], _ => true
  | _ :: _, [] => false
  | a :: as, b :: bs =>
    if a < b then true else if b < a then false else natListLe as bs

/-- `a.localeCompare(b) <= 0` in the collation model. -/
def localeLe (a b : String) : Bool :=
  natListLe (collationKey a) (collationKey b)

theorem natListLe_total (a b : List Nat) :
    natListLe a b = true ∨ natListLe b a = true := by
  induction a generalizing b with
  | nil => exact Or.inl rfl
  | cons x xs ih =>
      cases b with
      | nil => exact Or.inr rfl
      | cons y ys =>
          rcases Nat.lt_trichotomy x y with h | h | h
          · left
            simp [natListLe, h]
          · subst h
            rcases ih ys with h' | h'
            · left
              simp [natListLe, h']
            · right
              simp [natListLe, h']
          · right
            simp [natListLe, h]

theorem natListLe_trans (a b c : List Nat) (hab : natListLe a b = true)
    (hbc : natListLe b c = true) : natListLe a c = true := by
  induction a generalizing b c with
  | nil => rfl
  | cons x xs ih =>
      cases b with
      | nil => cases hab
      | cons y ys =>
          cases c with
          | nil => cases hbc
          | cons z zs =>
              rcases Nat.lt_trichotomy x y with h1 | h1 | h1
              · rcases Nat.lt_trichotomy y z with h2 | h2 | h2
                · simp [natListLe, (show x < z by omega)]
                · subst h2
                  simp [natListLe, h1]
                · simp [natListLe, (show ¬ y < z by omega), h2] at hbc
              · subst h1
                rcases Nat.lt_trichotomy x z with h2 | h2 | h2
                · simp [natListLe, h2]
                · subst h2
                  simp only [natListLe, Nat.lt_irrefl, if_false] at hab hbc ⊢
                  exact ih ys zs hab hbc
                · simp [natListLe, (show ¬ x < z by omega), h2] at hbc
              · simp [natListLe, (show ¬ x < y by omega), h1] at hab

theorem natListLe_antisymm (a b : List Nat) (hab : natListLe a b = true)
    (hba : natListLe b a = true) : a = b := by
  induction a generalizing b with
  | nil =>
      cases b with
      | nil => rfl
      | cons y ys => cases hba
  | cons x xs ih =>
      cases b with
      | nil => cases hab
      | cons y ys =>
          rcases Nat.lt_trichotomy x y with h | h | h
          · simp [natListLe, (show ¬ y < x by omega), h] at hba
          · subst h
            simp only [natListLe, Nat.lt_irrefl, if_false] at hab hba
            rw [ih ys hab hba]
          · simp [natListLe, (show ¬ x < y by omega), h] at hab

theorem charToNat_inj (a b : Char) (h : a.toNat = b.toNat) : a = b := by
  cases a; cases b
  simp only [Char.toNat] at h
  congr 1
  exact UInt32.toNat.inj h

theorem weight_char_determined (a b : Char)
    (hp : primaryWeight a = primaryWeight b)
    (ht : tertiaryWeight a = tertiaryWeight b) : a = b := by
  unfold primaryWeight at hp
  unfold tertiaryWeight at ht
  by_cases ha : isUpperAscii a = true
  · by_cases hb : isUpperAscii b = true
    · rw [if_pos ha, if_pos hb] at hp
      exact charToNat_inj a b (by omega)
    · rw [if_pos ha, if_neg hb] at ht
      cases ht
  · by_cases hb : isUpperAscii b = true
    · rw [if_neg ha, if_pos hb] at ht
      cases ht
    · rw [if_neg ha, if_neg hb] at hp
      exact charToNat_inj a b (by omega)

theorem primaryWeight_ne_zero (c : Char) : primaryWeight c ≠ 0 := by
  unfold primaryWeight
  split_ifs <;> omega

theorem tertiaryWeight_ne_zero (c : Char) : tertiaryWeight c ≠ 0 := by
  unfold tertiaryWeight
  split_ifs <;> omega

theorem split_at_zero (as bs cs ds : List Nat)
    (h : as ++ 0 :: bs = cs ++ 0 :: ds)
    (ha : ∀ x ∈ as, x ≠ 0) (hc : ∀ x ∈ cs, x ≠ 0) :
    as = cs ∧ bs = ds := by
  induction as generalizing cs with
  | nil =>
      cases cs with
      | nil =>
          simp only [List.nil_append, List.cons.injEq] at h
          exact ⟨rfl, h.2⟩
      | cons c ct =>
          simp only [List.nil_append, List.cons_append, List.cons.injEq] at h
          exact absurd h.1.symm (hc c (by simp))
  | cons a at' ih =>
      cases cs with
      | nil =>
          simp only [List.cons_append, List.nil_append, List.cons.injEq] at h
          exact absurd h.1 (ha a (by simp))
      | cons c ct =>
          simp only [List.cons_append, List.cons.injEq] at h
          obtain ⟨hac, hrest⟩ := h
          have := ih ct hrest (fun x hx => ha x (by simp [hx]))
            (fun x hx => hc x (by simp [hx]))
          exact ⟨by rw [hac, this.1], this.2⟩

theorem map_pair_inj (l1 l2 : List Char)
    (hp : l1.map primaryWeight = l2.map primaryWeight)
    (ht : l1.map tertiaryWeight = l2.map tertiaryWeight) : l1 = l2 := by
  induction l1 generalizing l2 with
  | nil =>
      cases l2 with
      | nil => rfl
      | cons y ys => cases hp
  | cons x xs ih =>
      cases l2 with
      | nil => cases hp
      | cons y ys =>
          simp only [List.map_cons, List.cons.injEq] at hp ht
          rw [weight_char_determined x y hp.1 ht.1, ih ys hp.2 ht.2]

theorem collationKey_inj (a b : String) (h : collationKey a = collationKey b) :
    a = b := by
  unfold collationKey at h
  have hsplit := split_at_zero (a.toList.map primaryWeight)
    (a.toList.map tertiaryWeight) (b.toList.map primaryWeight)
    (b.toList.map tertiaryWeight) h
    (by
      intro x hx
      rcases List.mem_map.mp hx with ⟨c, _, rfl⟩
      exact primaryWeight_ne_zero c)
    (by
      intro x hx
      rcases List.mem_map.mp hx with ⟨c, _, rfl⟩
      exact primaryWeight_ne_zero c)
  have hchars := map_pair_inj a.toList b.toList hsplit.1 hsplit.2
  cases a; cases b
  congr 1

theorem localeLe_antisymm (a b : String) (hab : localeLe a b = true)
    (hba : localeLe b a = true) : a = b :=
  collationKey_inj a b
    (natListLe_antisymm (collationKey a) (collationKey b) hab hba)

/-- Comparator handed to `Array.prototype.sort` for object entries: it reads
only the keys (`([a], [b]) => a.localeCompare(b)`). -/
def entryLe (p q : String × String) : Prop :=
  localeLe p.1 q.1 = true

instance : DecidableRel entryLe := fun p q => by
  unfold entryLe
  infer_instance

instance : IsTotal (String × String) entryLe :=
  ⟨fun p q => natListLe_total (collationKey p.1) (collationKey q.1)⟩

instance : IsTrans (String × String) entryLe :=
  ⟨fun p q r => natListLe_trans (collationKey p.1) (collationKey q.1)
    (collationKey r.1)⟩

/-- One escaped character of `JSON.stringify` on a string. -/
def jsonEscapeChar (c : Char) : List Char :=
  if c = '"' then ['\\', '"']
  else if c = '\\' then ['\\', '\\']
  else if c = '\x08' then ['\\', 'b']
  else if c = '\x09' then ['\\', 't']
  else if c = '\x0a' then ['\\', 'n']
  else if c = '\x0c' then ['\\', 'f']
  else if c = '\x0d' then ['\\', 'r']
  else if c.toNat < 32 then
    ['\\', 'u', '0', '0', hexDigitChar (c.toNat / 16), hexDigitChar (c.toNat % 16)]
  else [c]

/-- `JSON.stringify` on a string: quote and escape. -/
def jsonQuote (s : String) : String :=
  "\"" ++ String.mk (s.toList.flatMap jsonEscapeChar) ++ "\""

/-- `JSON.stringify` on an integer-valued number (plain decimal). -/
def jsIntToString (n : Int) : String :=
  toString n

/-- Serialize already-stringified object entries: sort by key with the
`localeCompare` comparator, render `"key":value`, join with commas, wrap in
braces. -/
def serializeObj (pairs : List (String × String)) : String :=
  "\x7b" ++ String.intercalate ","
      ((List.insertionSort entryLe pairs).map
        (fun p => jsonQuote p.1 ++ ":" ++ p.2)) ++ "\x7d"

mutual

/-- `canonicalStringify(value)`: arrays first (element order preserved), then
objects (`Object.entries` sorted with `localeCompare`), scalars via
`JSON.stringify`.  The source sorts the raw entries and then serializes each
value; here each entry value is serialized first and the (key, string) pairs
are then sorted — the comparator reads only the keys, so the output is
identical. -/
def canonicalStringify : JValue → String
  | .jnull => "null"
  | .jbool true => "true"
  | .jbool false => "false"
  | .jnum n => jsIntToString n
  | .jstr s => jsonQuote s
  | .jarr items => "[" ++ String.intercalate "," (canonicalList items) ++ "]"
  | .jobj entries => serializeObj (canonicalEntries entries)

/-- Elementwise serialization of an array (`value.map(canonicalStringify)`). -/
def canonicalList : List JValue → List String
  | [] => []
  | v :: rest => canonicalStringify v :: canonicalList rest

/-- Entrywise serialization of an object's entries. -/
def canonicalEntries : List (String × JValue) → List (String × String)
  | [] => []
  | (k, v) :: rest => (k, canonicalStringify v) :: canonicalEntries rest

end

/-- Serialization of object entries exactly as the specification words it:
keys sorted lexicographically by raw code-point order. -/
def codePointLe (a b : String) : Bool :=
  natListLe (a.toList.map Char.toNat) (b.toList.map Char.toNat)

/-- Entry comparator under raw code-point order. -/
def entryLeCP (p q : String × String) : Prop :=
  codePointLe p.1 q.1 = true

instance : DecidableRel entryLeCP := fun p q => by
  unfold entryLeCP
  infer_instance

/-- Object serialization under raw code-point key order (the specification's
wording). -/
def serializeObjCP (pairs : List (String × String)) : String :=
  "\x7b" ++ String.intercalate ","
      ((List.insertionSort entryLeCP pairs).map
        (fun p => jsonQuote p.1 ++ ":" ++ p.2)) ++ "\x7d"

mutual

/-- The canonical serialization exactly as the specification words it,
differing from `canonicalStringify` only in the key order of objects. -/
def canonicalStringifySpec : JValue → String
  | .jnull => "null"
  | .jbool true => "true"
  | .jbool false => "false"
  | .jnum n => jsIntToString n
  | .jstr s => jsonQuote s
  | .jarr items => "[" ++ String.intercalate "," (canonicalListSpec items) ++ "]"
  | .jobj entries => serializeObjCP (canonicalEntriesSpec entries)

/-- Elementwise spec serialization of an array. -/
def canonicalListSpec : List JValue → List String
  | [] => []
  | v :: rest => canonicalStringifySpec v :: canonicalListSpec rest

/-- Entrywise spec serialization of an object's entries. -/
def canonicalEntriesSpec : List (String × JValue) → List (String × String)
  | [] => []
  | (k, v) :: rest => (k, canonicalStringifySpec v) :: canonicalEntriesSpec rest

end

/-- The object `{B: 1, a: 2}` (in that insertion order). -/
def mixedCaseObj : JValue :=
  .jobj [("B", .jnum 1), ("a", .jnum 2)]

/-- Counterexample to C5: the code does not sort keys by raw byte/code-point
order.  `localeCompare` puts `"a"` before `"B"`, while code-point order puts
`"B"` (0x42) before `"a"` (0x61); the two serializations of the same object
differ. -/
theorem canonicalStringify_not_codepoint_order :
    canonicalStringify mixedCaseObj = "\x7b\"a\":2,\"B\":1\x7d" ∧
    canonicalStringifySpec mixedCaseObj = "\x7b\"B\":1,\"a\":2\x7d" ∧
    canonicalStringify mixedCaseObj ≠ canonicalStringifySpec mixedCaseObj := by
  refine ⟨by rfl, by rfl, by decide⟩

/-- Two sorted entry lists that are permutations of each other and whose keys
are duplicate-free are equal: the comparator only reads keys, and the
collation key is injective on strings, so distinct keys never compare
equal. -/
theorem sorted_perm_nodup_eq (s1 s2 : List (String × String))
    (hperm : s1.Perm s2) (h1 : List.Sorted entryLe s1)
    (h2 : List.Sorted entryLe s2) (hnd : (s1.map Prod.fst).Nodup) :
    s1 = s2 := by
  induction s1 generalizing s2 with
  | nil => exact List.Perm.nil_eq hperm
  | cons x xs ih =>
      cases s2 with
      | nil => exact absurd hperm.symm (by simp)
      | cons y ys =>
          have hxy : x = y := by
            by_contra hne
            have hy : y ∈ x :: xs := hperm.symm.subset (by simp)
            rcases List.mem_cons.mp hy with h | hytail
            · exact hne h.symm
            have hx : x ∈ y :: ys := hperm.subset (by simp)
            rcases List.mem_cons.mp hx with h | hxtail
            · exact hne h
            have hr1 : entryLe x y := List.rel_of_sorted_cons h1 y hytail
            have hr2 : entryLe y x := List.rel_of_sorted_cons h2 x hxtail
            have hkeys : x.1 = y.1 := localeLe_antisymm x.1 y.1 hr1 hr2
            have hyk : y.1 ∈ xs.map Prod.fst := List.mem_map_of_mem _ hytail
            rw [List.map_cons, List.nodup_cons] at hnd
            exact hnd.1 (hkeys ▸ hyk)
          subst hxy
          have hpt : xs.Perm ys := hperm.cons_inv
          rw [List.map_cons, List.nodup_cons] at hnd
          rw [ih ys hpt h1.of_cons h2.of_cons hnd.2]

/-- `canonicalEntries` is the entrywise map of serialization. -/
theorem canonicalEntries_eq_map (entries : List (String × JValue)) :
    canonicalEntries entries =
      entries.map (fun p => (p.1, canonicalStringify p.2)) := by
  induction entries with
  | nil => rfl
  | cons p rest ih =>
      cases p with
      | mk k v => rw [canonicalEntries, ih, List.map_cons]

/-- C5 (amended): `canonicalStringify` is a total function that serializes
object keys sorted by the `localeCompare` collation (case-insensitive primary
pass, lower case first — not raw code-point order), arrays in element order;
it is order-invariant: two objects whose entry lists are permutations of each
other (equal as key-value sets, keys duplicate-free) canonicalize to the
identical string. -/
theorem canonicalStringify_order_invariant (e1 e2 : List (String × JValue))
    (hperm : e1.Perm e2) (hnd : (e1.map Prod.fst).Nodup) :
    canonicalStringify (.jobj e1) = canonicalStringify (.jobj e2) := by
  show serializeObj (canonicalEntries e1) = serializeObj (canonicalEntries e2)
  have hpm : (canonicalEntries e1).Perm (canonicalEntries e2) := by
    rw [canonicalEntries_eq_map, canonicalEntries_eq_map]
    exact hperm.map _
  have hkeys1 : (canonicalEntries e1).map Prod.fst = e1.map Prod.fst := by
    rw [canonicalEntries_eq_map, List.map_map]
    rfl
  have hnd1 : ((canonicalEntries e1).map Prod.fst).Nodup := by
    rw [hkeys1]; exact hnd
  have hsorted1 := List.sorted_insertionSort entryLe (canonicalEntries e1)
  have hsorted2 := List.sorted_insertionSort entryLe (canonicalEntries e2)
  have hp : (List.insertionSort entryLe (canonicalEntries e1)).Perm
      (List.insertionSort entryLe (canonicalEntries e2)) :=
    ((List.perm_insertionSort entryLe (canonicalEntries e1)).trans hpm).trans
      (List.perm_insertionSort entryLe (canonicalEntries e2)).symm
  have hndsorted : ((List.insertionSort entryLe (canonicalEntries e1)).map
      Prod.fst).Nodup := by
    have : ((List.insertionSort entryLe (canonicalEntries e1)).map
        Prod.fst).Perm ((canonicalEntries e1).map Prod.fst) :=
      (List.perm_insertionSort entryLe (canonicalEntries e1)).map _
    exact this.nodup_iff.mpr hnd1
  unfold serializeObj
  rw [sorted_perm_nodup_eq _ _ hp hsorted1 hsorted2 hndsorted]

/-- Witness for the amended C5: the two insertion orders of
`{a: 1, b: "x"}` canonicalize identically. -/
theorem canonicalStringify_order_invariant_witness :
    canonicalStringify (.jobj [("b", .jstr "x"), ("a", .jnum 1)]) =
      canonicalStringify (.jobj [("a", .jnum 1), ("b", .jstr "x")]) := by
  exact canonicalStringify_order_invariant
    [("b", .jstr "x"), ("a", .jnum 1)] [("a", .jnum 1), ("b", .jstr "x")]
    (List.Perm.swap (("a", JValue.jnum 1)) (("b", JValue.jstr "x")) [])
    (by decide)

/-- Witness for C1: a concrete event settling `sampleInvoice` is returned as
the (first and only) match. -/
theorem matchSettlement_spec_witness :
    matchSettlement sampleInvoice [sampleEvent] = some sampleEvent := by
  have h := (matchSettlement_spec sampleInvoice [sampleEvent]).2 sampleEvent
  refine h.mpr ⟨[], [], rfl, ?_, ?_⟩
  · decide
  · intro x hx
    cases hx

/-- Witness for the amended C2: the two derivations evaluated at a concrete
invoiceId match their characterizations. -/
theorem createInvoiceMemo_spec_witness :
    createInvoiceMemoApi "INV-TEST-1" = deriveMemoSpec "INV-TEST-1" :=
  (createInvoiceMemo_spec "INV-TEST-1").1
